import Mathlib

/-!
Shallow embedding of `src/boardgame-connector/bgg_plays.py` (the `BggPlays`
class) from the matter-game-geek repository, together with theorems checking
the natural-language specification against it.

Modelling conventions:
* Python dicts for plays become the `PlayRecord` structure; the optional
  `comment` key becomes `Option String`.
* Python exceptions become the explicit error type `PyError`; each operation
  returns `Except PyError _`.
* Network effects are abstracted into explicit parameters: the thumbnail
  lookup `_get_thumbnail` becomes a function argument `thumb : Int → String`,
  and the HTTP response consumed by `request_data` becomes an explicit
  `HttpResponse` value together with an abstract XML decoder
  `fromstring : String → List XmlPlay`.
* Python `int` is modelled as `Int` (counts of records as `Nat`); Python
  real division followed by `int(...)` truncation on non-negative operands
  is modelled exactly (rational division), which on naturals is `Nat`
  division.
-/

/-- Character-list comparison used to model Python's substring test:
`listStartsWith n h` holds when `n` is an initial segment of `h`. -/
def listStartsWith : List Char → List Char → Bool
  | [], _ => true
  | _ :: _, [] => false
  | a :: as, b :: bs => a == b && listStartsWith as bs

/-- Models Python's `needle in hay` substring containment on strings. -/
def substrMem (needle hay : String) : Bool :=
  (List.range (hay.toList.length + 1)).any fun i =>
    listStartsWith needle.toList (hay.toList.drop i)

/-- Text in a BGG play comment that equates to a cooperative game win. -/
def WON_TEXT : String := "Won"

/-- Text in a BGG play comment that equates to a cooperative game loss. -/
def LOST_TEXT : String := "Lost"

/-- One play dict as built by `fetch_data`: keys `date`, `game_id`,
`game_name`, `comment` (optional) and `length`. The outer `Option` of
`comment` is whether the dict has a `comment` key at all; the inner
`Option` is the Python value under it, which `fetch_data` takes from
`xml_play[1].text` and which is therefore `None` (here `none`) for an
element without text. -/
structure PlayRecord where
  date : String
  game_id : Int
  game_name : String
  comment : Option (Option String)
  length : Int
deriving DecidableEq, Repr

/-- Python exceptions raised by the module, by kind. -/
inductive PyError where
  /-- `Exception("No data found ... Maybe it has not been fetched yet.")` —
  the spec's `FetchNotPerformed`. -/
  | noDataFound
  /-- `TypeError` from iterating `None` (`self.data` before any fetch). -/
  | typeError
  /-- `StopIteration` escaping from `next` — the spec's `GameNotFound`. -/
  | stopIteration
  /-- `ZeroDivisionError` from `wins / (wins + losses)` with both zero. -/
  | zeroDivisionError
  /-- `ValueError` from `max([])` on an empty summed-group list. -/
  | valueError
deriving DecidableEq, Repr

/-- State of a `BggPlays` object: `self.data` (`None` before any fetch)
and `self.username`. -/
structure BggPlays where
  data : Option (List PlayRecord)
  username : String
deriving DecidableEq, Repr

/-- A child node of a `<play>` XML element, with the attributes the parser
reads (`objectid` and `name` on `<item>`, `text` on `<comments>`); `.text`
is `None` (here `none`) for an element with no text. -/
structure XmlChild where
  tag : String
  objectid : Int
  name : String
  text : Option String
deriving DecidableEq, Repr

/-- A top-level `<play>` XML element: `date` and `length` attributes plus
child nodes. -/
structure XmlPlay where
  date : String
  length : Int
  children : List XmlChild
deriving DecidableEq, Repr

/-- An HTTP response as seen by `request_data`: status code and raw body. -/
structure HttpResponse where
  status_code : Int
  content : String
deriving DecidableEq, Repr

/-- One step of the `for xml_play_child in xml_play` loop in `fetch_data`:
an `item` child sets `game_id` and `game_name`; a `comments` child sets
`comment` from `xml_play[1].text` (the play's second child — a quirk kept
from the source); other tags are ignored. -/
def applyChild (x : XmlPlay) (p : PlayRecord) (c : XmlChild) : PlayRecord :=
  if c.tag == "item" then
    { p with game_id := c.objectid, game_name := c.name }
  else if c.tag == "comments" then
    { p with comment := (x.children.get? 1).map XmlChild.text }
  else p

/-- The per-play body of the parsing loop in `fetch_data`: starts from the
`date` and `length` attributes and folds the children over `applyChild`.
The spec's data-model invariant ("`game_id` and `game_name` are always
present once a record is constructed") lets the pre-`item` placeholders be
plain defaults. -/
def parsePlay (x : XmlPlay) : PlayRecord :=
  x.children.foldl (applyChild x)
    { date := x.date, game_id := 0, game_name := "", comment := none,
      length := x.length }

/-- `BggPlays.request_data`: issues the GET request (the response is the
`response` argument here) and, when `status_code != 200`, only logs the
failure — the boolean below is computed for the log line and then dropped,
exactly as the source's `logging.error` branch — before unconditionally
parsing the body with `etree.fromstring` (the abstract `fromstring`). -/
def request_data (fromstring : String → List XmlPlay) (response : HttpResponse) :
    List XmlPlay :=
  let _logged := response.status_code != 200
  fromstring response.content

/-- `BggPlays.fetch_data`: requests the plays document, parses every
`<play>` element into a `PlayRecord`, and overwrites `self.data` with the
fresh list. -/
def fetch_data (fromstring : String → List XmlPlay) (response : HttpResponse)
    (s : BggPlays) : BggPlays :=
  let xml_root := request_data fromstring response
  { s with data := some (xml_root.map parsePlay) }

/-- An element of the list returned by `latest_played_games`. -/
structure LatestGame where
  name : String
  date : String
  thumbnail : String
deriving DecidableEq, Repr

/-- `BggPlays.latest_played_games`: fails when no fetch has happened,
otherwise maps the first `num_games = 10` records (slice `self.data[:10]`)
to name/date/thumbnail dicts. -/
def latest_played_games (thumb : Int → String) (s : BggPlays) :
    Except PyError (List LatestGame) :=
  match s.data with
  | none => .error .noDataFound
  | some data =>
    let num_games := 10
    .ok ((data.take num_games).map fun play =>
      { name := play.game_name, date := play.date,
        thumbnail := thumb play.game_id })

/-- One test of the comprehension filter
`'comment' in play and MARKER in play['comment']`: an absent key
short-circuits to `False`; a key present with Python `None` makes the
second `in` test raise `TypeError` (`argument of type 'NoneType' is not
iterable`); a string value is a substring test. -/
def commentHas (marker : String) (play : PlayRecord) : Except PyError Bool :=
  match play.comment with
  | none => .ok false
  | some none => .error .typeError
  | some (some c) => .ok (substrMem marker c)

/-- Length of the comprehension
`[play for play in self.data if 'comment' in play and MARKER in play['comment']]`:
counts the matching records, raising `TypeError` at the first record whose
comment value is Python `None`. -/
def countMatches (marker : String) : List PlayRecord → Except PyError Nat
  | [] => .ok 0
  | p :: ps =>
    match commentHas marker p with
    | .error e => .error e
    | .ok b =>
      match countMatches marker ps with
      | .error e => .error e
      | .ok n => .ok (if b then n + 1 else n)

/-- Specification-side predicate: the play's `comment` key holds a string
containing `marker`. It agrees record-wise with `commentHas` whenever no
comment value is Python `None` (where the comprehension raises instead of
selecting). -/
def hasMarkerComment (marker : String) (play : PlayRecord) : Bool :=
  match play.comment with
  | some (some c) => substrMem marker c
  | _ => false

/-- Specification-side predicate for the wins tally. -/
def hasWonComment (play : PlayRecord) : Bool :=
  hasMarkerComment WON_TEXT play

/-- Specification-side predicate for the losses tally. -/
def hasLostComment (play : PlayRecord) : Bool :=
  hasMarkerComment LOST_TEXT play

/-- Binary length of a natural number, with explicit fuel so that the
recursion is structural and evaluates by kernel reduction; `bitLen` below
supplies enough fuel. -/
def bitLenAux : Nat → Nat → Nat
  | _, 0 => 0
  | 0, _ + 1 => 0
  | fuel + 1, n + 1 => bitLenAux fuel ((n + 1) / 2) + 1

/-- Number of binary digits of a natural number (0 for 0). -/
def bitLen (n : Nat) : Nat := bitLenAux n n

/-- The floor of the base-2 logarithm of the positive fraction `a / b`,
computed from the bit lengths of `a` and `b`; the comparison multiplies
each side by a power of two so that it stays in `ℕ`. -/
def fracLog2 (a b : ℕ) : ℤ :=
  if a * 2 ^ (-((bitLen a : ℤ) - (bitLen b : ℤ))).toNat <
      b * 2 ^ ((bitLen a : ℤ) - (bitLen b : ℤ)).toNat then
    (bitLen a : ℤ) - (bitLen b : ℤ) - 1
  else
    (bitLen a : ℤ) - (bitLen b : ℤ)

/-- Round the fraction `a / b` (with `b > 0`) to the nearest integer,
ties to even. -/
def rneFrac (a b : ℕ) : ℕ :=
  if 2 * (a % b) < b then a / b
  else if 2 * (a % b) > b then a / b + 1
  else if a / b % 2 = 0 then a / b else a / b + 1

/-- Exponent of the unit in the last place of the IEEE 754 binary64 value
nearest to `a / b`: `e - 52` for the exponent `e = fracLog2 a b`, clamped
at the subnormal ulp exponent `-1074`. -/
def ulpExpFor (a b : ℕ) : ℤ := max (fracLog2 a b - 52) (-1074)

/-- Integer significand of the binary64 value nearest to `a / b`: the
fraction is rescaled by the ulp (again through `ℕ` by multiplying the
appropriate side) and rounded to the nearest integer, ties to even. -/
def mantissaFor (a b : ℕ) : ℕ :=
  rneFrac (a * 2 ^ (-(ulpExpFor a b)).toNat) (b * 2 ^ (ulpExpFor a b).toNat)

/-- The binary64 value nearest to `a / b` (round-to-nearest,
ties-to-even), returned exactly as a numerator and a power-of-two
denominator: the value is `mantissaFor a b * 2 ^ ulpExpFor a b`. Overflow
to infinity is not modelled; the module only rounds quotients in `[0, 1]`
and their product with 100. -/
def roundFracToDouble (a b : ℕ) : ℕ × ℕ :=
  (mantissaFor a b * 2 ^ (ulpExpFor a b).toNat, 2 ^ (-(ulpExpFor a b)).toNat)

/-- Python's `int((wins / (wins + losses)) * 100)` over binary64 floats:
the int-to-int true division is correctly rounded to a double `q`, the
product `q * 100` (an exact dyadic rational times the exactly
representable 100) is correctly rounded again, and `int(...)` truncates
the non-negative result toward zero. -/
def pyWinPercentage (wins losses : Nat) : Nat :=
  let q := roundFracToDouble wins (wins + losses)
  let p := roundFracToDouble (q.1 * 100) q.2
  p.1 / p.2

/-- Result dict of `cooperative_game_statistics`. -/
structure CoopStats where
  wins : Nat
  losses : Nat
  win_percentage : Nat
deriving DecidableEq, Repr

/-- `BggPlays.cooperative_game_statistics`: fails when no fetch has
happened; evaluates the wins comprehension, then the losses comprehension
(each raising `TypeError` at a record whose comment value is Python
`None`); raises `ZeroDivisionError` at the division when both counts are
zero, and otherwise computes `int((wins / (wins + losses)) * 100)` in
binary64 floating point, truncated toward zero. -/
def cooperative_game_statistics (s : BggPlays) : Except PyError CoopStats :=
  match s.data with
  | none => .error .noDataFound
  | some data =>
    match countMatches WON_TEXT data with
    | .error e => .error e
    | .ok wins =>
      match countMatches LOST_TEXT data with
      | .error e => .error e
      | .ok losses =>
        if wins + losses = 0 then .error .zeroDivisionError
        else .ok { wins := wins, losses := losses,
                   win_percentage := pyWinPercentage wins losses }

/-- Result dict of `game_info_by_id`. -/
structure GameInfo where
  name : String
  thumbnail : String
deriving DecidableEq, Repr

/-- `BggPlays.game_info_by_id`: evaluates
`next(g for g in self.data if g['game_id'] == game_id)`. There is no
fetched-data guard: when `self.data` is `None`, iterating it raises
`TypeError`; when no record matches, `next` raises `StopIteration`;
otherwise the first matching record's name and thumbnail are returned. -/
def game_info_by_id (thumb : Int → String) (s : BggPlays) (game_id : Int) :
    Except PyError GameInfo :=
  match s.data with
  | none => .error .typeError
  | some data =>
    match data.find? (fun g => g.game_id == game_id) with
    | none => .error .stopIteration
    | some play => .ok { name := play.game_name, thumbnail := thumb play.game_id }

/-- Stable insertion of a play into a list already sorted by `game_id`,
used to model Python's stable `sorted(self.data, key=lambda k: k['game_id'])`. -/
def insertPlay (p : PlayRecord) : List PlayRecord → List PlayRecord
  | [] => [p]
  | q :: qs =>
    if p.game_id ≤ q.game_id then p :: q :: qs else q :: insertPlay p qs

/-- Stable sort by `game_id`, modelling
`sorted(self.data, key=lambda k: k['game_id'])` in `most_played_game`. -/
def sortPlays : List PlayRecord → List PlayRecord
  | [] => []
  | p :: ps => insertPlay p (sortPlays ps)

/-- Tail of the `itertools.groupby` + per-group `sum` loop of
`most_played_game`: `gid` is the key of the group currently open, `acc` the
lengths summed for it so far; a play with a new key closes the group and
emits its `(key, sum_length)` pair. -/
def groupSumsAux (gid : Int) (acc : Int) : List PlayRecord → List (Int × Int)
  | [] => [(gid, acc)]
  | p :: ps =>
    if p.game_id == gid then groupSumsAux gid (acc + p.length) ps
    else (gid, acc) :: groupSumsAux p.game_id p.length ps

/-- The `summed` list of `most_played_game`: one `(key, sum_length)` pair
per run of equal `game_id` in the (sorted) input, in encounter order. -/
def groupSums : List PlayRecord → List (Int × Int)
  | [] => []
  | p :: ps => groupSumsAux p.game_id p.length ps

/-- Tail of Python's `max(summed, key=lambda k: k[1])`: keeps the current
best and replaces it only on a strictly greater key value, so the first
maximal element wins. -/
def maxBySndAux (best : Int × Int) : List (Int × Int) → Int × Int
  | [] => best
  | y :: ys => if y.2 > best.2 then maxBySndAux y ys else maxBySndAux best ys

/-- Python's `max(summed, key=lambda k: k[1])`: `none` models the
`ValueError` raised on an empty list. -/
def maxBySnd : List (Int × Int) → Option (Int × Int)
  | [] => none
  | x :: xs => some (maxBySndAux x xs)

/-- Result dict of `most_played_game`. -/
structure MostPlayed where
  name : String
  thumbnail : String
  time : Int
deriving DecidableEq, Repr

/-- `BggPlays.most_played_game`: fails when no fetch has happened; groups
the records sorted by `game_id`, sums `length` per group, takes the pair
with the maximal sum (`ValueError` on an empty list), resolves the game's
info through `game_info_by_id`, and attaches the summed time. -/
def most_played_game (thumb : Int → String) (s : BggPlays) :
    Except PyError MostPlayed :=
  match s.data with
  | none => .error .noDataFound
  | some data =>
    match maxBySnd (groupSums (sortPlays data)) with
    | none => .error .valueError
    | some most_played =>
      match game_info_by_id thumb s most_played.1 with
      | .error e => .error e
      | .ok game =>
        .ok { name := game.name, thumbnail := game.thumbnail,
              time := most_played.2 }

/-- Total `length` of the plays of game `gid` in `l` — the measure the
grouping loop of `most_played_game` computes per key. Used to state the
specification theorems. -/
def sumFor (gid : Int) (l : List PlayRecord) : Int :=
  (l.map fun p => if p.game_id == gid then p.length else 0).sum

/-- If some element of `l` satisfies `p`, `List.find?` returns the first
such element: `l` splits as `l1 ++ q :: l2` with nothing in `l1`
satisfying `p`. -/
theorem findq_first {α : Type} (p : α → Bool) (l : List α) (x : α)
    (hx : x ∈ l) (hp : p x = true) :
    ∃ q l1 l2, l.find? p = some q ∧ p q = true ∧ l = l1 ++ q :: l2 ∧
      ∀ r ∈ l1, p r = false := by
  induction l with
  | nil => cases hx
  | cons a as ih =>
    cases ha : p a with
    | true =>
      exact ⟨a, [], as, by simp [List.find?_cons, ha], ha, rfl, by simp⟩
    | false =>
      have hx' : x ∈ as := by
        rcases List.mem_cons.mp hx with h | h
        · subst h; rw [ha] at hp; cases hp
        · exact h
      obtain ⟨q, l1, l2, hfind, hq, hsplit, hnone⟩ := ih hx'
      refine ⟨q, a :: l1, l2, ?_, hq, by simp [hsplit], ?_⟩
      · simp [List.find?_cons, ha, hfind]
      · intro r hr
        rcases List.mem_cons.mp hr with h | h
        · subst h; exact ha
        · exact hnone r h

/-- C6: for a fetched record sequence, `game_info_by_id` fails with the
"not found" condition (`StopIteration`) when no record has the requested
`game_id`, and otherwise returns name and thumbnail from the first record
whose `game_id` matches. -/
theorem game_info_by_id_spec (thumb : Int → String) (s : BggPlays)
    (data : List PlayRecord) (gid : Int) (hd : s.data = some data) :
    ((∀ p ∈ data, p.game_id ≠ gid) →
      game_info_by_id thumb s gid = .error .stopIteration) ∧
    (∀ x ∈ data, x.game_id = gid →
      ∃ q l1 l2, data = l1 ++ q :: l2 ∧ q.game_id = gid ∧
        (∀ r ∈ l1, r.game_id ≠ gid) ∧
        game_info_by_id thumb s gid =
          .ok { name := q.game_name, thumbnail := thumb q.game_id }) := by
  constructor
  · intro hnone
    have hfind : data.find? (fun g => g.game_id == gid) = none := by
      rw [List.find?_eq_none]
      intro x hx
      simp [hnone x hx]
    simp [game_info_by_id, hd, hfind]
  · intro x hx hxg
    obtain ⟨q, l1, l2, hfind, hq, hsplit, hnomatch⟩ :=
      findq_first (fun g => g.game_id == gid) data x hx (by simp [hxg])
    refine ⟨q, l1, l2, hsplit, by simpa using hq, ?_, ?_⟩
    · intro r hr
      simpa using hnomatch r hr
    · simp [game_info_by_id, hd, hfind]

/-- Witness for C6 at a concrete fetched state and id 2. -/
theorem game_info_by_id_spec_witness :
    (BggPlays.mk
      (some [{ date := "2018-06-22", game_id := 1, game_name := "Azul",
               comment := none, length := 30 },
             { date := "2018-06-21", game_id := 2, game_name := "Catan",
               comment := none, length := 10 }]) "alice").data =
      some [{ date := "2018-06-22", game_id := 1, game_name := "Azul",
              comment := none, length := 30 },
            { date := "2018-06-21", game_id := 2, game_name := "Catan",
              comment := none, length := 10 }] ∧
    (((∀ p ∈ [({ date := "2018-06-22", game_id := 1, game_name := "Azul",
                 comment := none, length := 30 } : PlayRecord),
               { date := "2018-06-21", game_id := 2, game_name := "Catan",
                 comment := none, length := 10 }], p.game_id ≠ (2 : Int)) →
      game_info_by_id (fun _ => "url")
        (BggPlays.mk
          (some [{ date := "2018-06-22", game_id := 1, game_name := "Azul",
                   comment := none, length := 30 },
                 { date := "2018-06-21", game_id := 2, game_name := "Catan",
                   comment := none, length := 10 }]) "alice") 2 =
          .error .stopIteration) ∧
    (∀ x ∈ [({ date := "2018-06-22", game_id := 1, game_name := "Azul",
               comment := none, length := 30 } : PlayRecord),
            { date := "2018-06-21", game_id := 2, game_name := "Catan",
              comment := none, length := 10 }], x.game_id = 2 →
      ∃ q l1 l2,
        [({ date := "2018-06-22", game_id := 1, game_name := "Azul",
            comment := none, length := 30 } : PlayRecord),
         { date := "2018-06-21", game_id := 2, game_name := "Catan",
           comment := none, length := 10 }] = l1 ++ q :: l2 ∧
        q.game_id = 2 ∧ (∀ r ∈ l1, r.game_id ≠ 2) ∧
        game_info_by_id (fun _ => "url")
          (BggPlays.mk
            (some [{ date := "2018-06-22", game_id := 1, game_name := "Azul",
                     comment := none, length := 30 },
                   { date := "2018-06-21", game_id := 2, game_name := "Catan",
                     comment := none, length := 10 }]) "alice") 2 =
            .ok { name := q.game_name, thumbnail := (fun _ => "url") q.game_id })) :=
  ⟨rfl, game_info_by_id_spec (fun _ => "url") _ _ 2 rfl⟩

/-- C5 counterexample: before any fetch, `game_info_by_id` fails with the
`TypeError` raised by iterating `None`, which is not the "not yet fetched"
error the claim names. -/
theorem game_info_unfetched_counterexample :
    game_info_by_id (fun _ => "url") { data := none, username := "alice" } 1 =
      .error PyError.typeError ∧
    (Except.error PyError.typeError : Except PyError GameInfo) ≠
      .error PyError.noDataFound :=
  ⟨rfl, by simp⟩

/-- C5 (amended): before any fetch, `latest_played_games`,
`cooperative_game_statistics` and `most_played_game` fail with the
"not yet fetched" error, while `game_info_by_id` fails with the
`TypeError` from iterating the absent sequence. -/
theorem unfetched_error_kinds (thumb : Int → String) (s : BggPlays)
    (gid : Int) (hd : s.data = none) :
    latest_played_games thumb s = .error .noDataFound ∧
    cooperative_game_statistics s = .error .noDataFound ∧
    most_played_game thumb s = .error .noDataFound ∧
    game_info_by_id thumb s gid = .error .typeError := by
  refine ⟨?_, ?_, ?_, ?_⟩ <;>
    simp [latest_played_games, cooperative_game_statistics,
          most_played_game, game_info_by_id, hd]

/-- Witness for C5's amended statement at a concrete unfetched state. -/
theorem unfetched_error_kinds_witness :
    (BggPlays.mk none "alice").data = none ∧
    (latest_played_games (fun _ => "url") (BggPlays.mk none "alice") =
      .error .noDataFound ∧
     cooperative_game_statistics (BggPlays.mk none "alice") =
      .error .noDataFound ∧
     most_played_game (fun _ => "url") (BggPlays.mk none "alice") =
      .error .noDataFound ∧
     game_info_by_id (fun _ => "url") (BggPlays.mk none "alice") 1 =
      .error .typeError) :=
  ⟨rfl, unfetched_error_kinds (fun _ => "url") (BggPlays.mk none "alice") 1 rfl⟩

/-- C7: at a response with non-success status 500, the fetch pipeline does
not fail: `request_data` still parses the body and `fetch_data` populates
`self.data` with the parsed record. -/
theorem fetch_ignores_status :
    (fetch_data
      (fun _ => [{ date := "2018-06-22", length := 30,
                   children := [{ tag := "item", objectid := 7,
                                  name := "Azul", text := none }] }])
      { status_code := 500, content := "<plays/>" }
      { data := none, username := "alice" }).data =
    some [{ date := "2018-06-22", game_id := 7, game_name := "Azul",
            comment := none, length := 30 }] := rfl

/-- C9: fetching again from the same remote data is an identity on the
observable state, so every statistic queried after the second fetch equals
the one queried after the first. -/
theorem fetch_round_trip (fromstring : String → List XmlPlay)
    (response : HttpResponse) (s : BggPlays) (thumb : Int → String)
    (gid : Int) :
    fetch_data fromstring response (fetch_data fromstring response s) =
      fetch_data fromstring response s ∧
    latest_played_games thumb
        (fetch_data fromstring response (fetch_data fromstring response s)) =
      latest_played_games thumb (fetch_data fromstring response s) ∧
    cooperative_game_statistics
        (fetch_data fromstring response (fetch_data fromstring response s)) =
      cooperative_game_statistics (fetch_data fromstring response s) ∧
    most_played_game thumb
        (fetch_data fromstring response (fetch_data fromstring response s)) =
      most_played_game thumb (fetch_data fromstring response s) ∧
    game_info_by_id thumb
        (fetch_data fromstring response (fetch_data fromstring response s)) gid =
      game_info_by_id thumb (fetch_data fromstring response s) gid :=
  ⟨rfl, rfl, rfl, rfl, rfl⟩

/-- C10: on a fetched but empty record sequence, `most_played_game` passes
the "not yet fetched" guard yet still fails, with the `ValueError` from
taking `max` of an empty summed-group list. -/
theorem most_played_empty_fetched (thumb : Int → String) (s : BggPlays)
    (hd : s.data = some []) :
    most_played_game thumb s = .error .valueError ∧
    most_played_game thumb s ≠ .error .noDataFound := by
  have h : most_played_game thumb s = .error .valueError := by
    simp [most_played_game, hd, sortPlays, groupSums, maxBySnd]
  refine ⟨h, ?_⟩
  rw [h]
  simp

/-- Witness for C10 at a concrete fetched-but-empty state. -/
theorem most_played_empty_fetched_witness :
    (BggPlays.mk (some []) "alice").data = some [] ∧
    (most_played_game (fun _ => "url") (BggPlays.mk (some []) "alice") =
      .error .valueError ∧
     most_played_game (fun _ => "url") (BggPlays.mk (some []) "alice") ≠
      .error .noDataFound) :=
  ⟨rfl, most_played_empty_fetched (fun _ => "url") (BggPlays.mk (some []) "alice") rfl⟩

/-- C4: for a fetched record sequence, `latest_played_games` succeeds with
exactly the first `min 10 (length data)` records in existing order — hence
at most 10 elements and never more than the sequence length — each mapped
to its name, date and thumbnail. -/
theorem latest_played_games_spec (thumb : Int → String) (s : BggPlays)
    (data : List PlayRecord) (hd : s.data = some data) :
    ∃ out, latest_played_games thumb s = .ok out ∧
      out.length = min 10 data.length ∧
      out.length ≤ 10 ∧ out.length ≤ data.length ∧
      ∀ i, ∀ hi : i < out.length, ∃ hj : i < data.length,
        out.get ⟨i, hi⟩ =
          { name := (data.get ⟨i, hj⟩).game_name,
            date := (data.get ⟨i, hj⟩).date,
            thumbnail := thumb (data.get ⟨i, hj⟩).game_id } := by
  refine ⟨(data.take 10).map fun play =>
      { name := play.game_name, date := play.date,
        thumbnail := thumb play.game_id }, ?_, ?_, ?_, ?_, ?_⟩
  · simp [latest_played_games, hd]
  · simp
  · simp
  · simp
  · intro i hi
    have hi' : i < min 10 data.length := by simpa using hi
    have hj : i < data.length := lt_of_lt_of_le hi' (Nat.min_le_right _ _)
    refine ⟨hj, ?_⟩
    rw [List.get_eq_getElem, List.get_eq_getElem]
    rw [List.getElem_map, List.getElem_take]

/-- Fetched state with two records, for the C4 witness. -/
def twoPlayState : BggPlays :=
  { data := some [{ date := "2018-06-22", game_id := 1, game_name := "Azul",
                    comment := none, length := 30 },
                  { date := "2018-06-21", game_id := 2, game_name := "Catan",
                    comment := none, length := 10 }],
    username := "alice" }

/-- Witness for C4 at a concrete two-record fetched state. -/
theorem latest_played_games_spec_witness :
    twoPlayState.data = some [{ date := "2018-06-22", game_id := 1,
                                game_name := "Azul", comment := none,
                                length := 30 },
                              { date := "2018-06-21", game_id := 2,
                                game_name := "Catan", comment := none,
                                length := 10 }] ∧
    (∃ out, latest_played_games (fun _ => "url") twoPlayState = .ok out ∧
      out.length = min 10 [({ date := "2018-06-22", game_id := 1,
                              game_name := "Azul", comment := none,
                              length := 30 } : PlayRecord),
                           { date := "2018-06-21", game_id := 2,
                             game_name := "Catan", comment := none,
                             length := 10 }].length ∧
      out.length ≤ 10 ∧
      out.length ≤ [({ date := "2018-06-22", game_id := 1,
                       game_name := "Azul", comment := none,
                       length := 30 } : PlayRecord),
                    { date := "2018-06-21", game_id := 2,
                      game_name := "Catan", comment := none,
                      length := 10 }].length ∧
      ∀ i, ∀ hi : i < out.length,
        ∃ hj : i < [({ date := "2018-06-22", game_id := 1,
                       game_name := "Azul", comment := none,
                       length := 30 } : PlayRecord),
                    { date := "2018-06-21", game_id := 2,
                      game_name := "Catan", comment := none,
                      length := 10 }].length,
        out.get ⟨i, hi⟩ =
          { name := ([({ date := "2018-06-22", game_id := 1,
                         game_name := "Azul", comment := none,
                         length := 30 } : PlayRecord),
                      { date := "2018-06-21", game_id := 2,
                        game_name := "Catan", comment := none,
                        length := 10 }].get ⟨i, hj⟩).game_name,
            date := ([({ date := "2018-06-22", game_id := 1,
                         game_name := "Azul", comment := none,
                         length := 30 } : PlayRecord),
                      { date := "2018-06-21", game_id := 2,
                        game_name := "Catan", comment := none,
                        length := 10 }].get ⟨i, hj⟩).date,
            thumbnail := (fun _ => "url")
              (([({ date := "2018-06-22", game_id := 1,
                    game_name := "Azul", comment := none,
                    length := 30 } : PlayRecord),
                 { date := "2018-06-21", game_id := 2,
                   game_name := "Catan", comment := none,
                   length := 10 }].get ⟨i, hj⟩).game_id) }) :=
  ⟨rfl, latest_played_games_spec (fun _ => "url") twoPlayState _ rfl⟩

/-- `insertPlay` permutes consing the play onto the list. -/
theorem insertPlay_perm (p : PlayRecord) (l : List PlayRecord) :
    List.Perm (insertPlay p l) (p :: l) := by
  induction l with
  | nil => simp [insertPlay]
  | cons q qs ih =>
    by_cases h : p.game_id ≤ q.game_id
    · simp [insertPlay, h]
    · simp only [insertPlay, if_neg h]
      exact List.Perm.trans (List.Perm.cons q ih) (List.Perm.swap p q qs)

/-- The sort in `most_played_game` permutes the record list. -/
theorem sortPlays_perm (l : List PlayRecord) :
    List.Perm (sortPlays l) l := by
  induction l with
  | nil => simp [sortPlays]
  | cons p ps ih =>
    exact List.Perm.trans (insertPlay_perm p (sortPlays ps)) (List.Perm.cons p ih)

/-- `insertPlay` keeps the list sorted by `game_id`. -/
theorem insertPlay_sorted (p : PlayRecord) (l : List PlayRecord)
    (hl : l.Pairwise (fun a b => a.game_id ≤ b.game_id)) :
    (insertPlay p l).Pairwise (fun a b => a.game_id ≤ b.game_id) := by
  induction l with
  | nil => simp [insertPlay]
  | cons q qs ih =>
    rw [List.pairwise_cons] at hl
    obtain ⟨hq, hqs⟩ := hl
    by_cases h : p.game_id ≤ q.game_id
    · simp only [insertPlay, if_pos h]
      rw [List.pairwise_cons]
      refine ⟨?_, List.pairwise_cons.mpr ⟨hq, hqs⟩⟩
      intro r hr
      rcases List.mem_cons.mp hr with h1 | h1
      · subst h1; exact h
      · exact le_trans h (hq r h1)
    · simp only [insertPlay, if_neg h]
      rw [List.pairwise_cons]
      refine ⟨?_, ih hqs⟩
      intro r hr
      have hr2 : r ∈ p :: qs := (insertPlay_perm p qs).mem_iff.mp hr
      rcases List.mem_cons.mp hr2 with h1 | h1
      · subst h1; exact le_of_not_le h
      · exact hq r h1

/-- The sorted list in `most_played_game` is sorted by `game_id`. -/
theorem sortPlays_sorted (l : List PlayRecord) :
    (sortPlays l).Pairwise (fun a b => a.game_id ≤ b.game_id) := by
  induction l with
  | nil => simp [sortPlays]
  | cons p ps ih => exact insertPlay_sorted p (sortPlays ps) ih

/-- `sumFor` over the empty list. -/
theorem sumFor_nil (gid : Int) : sumFor gid [] = 0 := rfl

/-- `sumFor` over a cons. -/
theorem sumFor_cons (gid : Int) (p : PlayRecord) (l : List PlayRecord) :
    sumFor gid (p :: l) =
      (if p.game_id == gid then p.length else 0) + sumFor gid l := by
  simp [sumFor]

/-- `sumFor` is invariant under list permutation. -/
theorem sumFor_perm (gid : Int) {l1 l2 : List PlayRecord}
    (h : List.Perm l1 l2) :
    sumFor gid l1 = sumFor gid l2 :=
  List.Perm.sum_eq (h.map _)

/-- `sumFor` vanishes when no play has the key. -/
theorem sumFor_eq_zero (gid : Int) (l : List PlayRecord)
    (h : ∀ p ∈ l, p.game_id ≠ gid) : sumFor gid l = 0 := by
  induction l with
  | nil => rfl
  | cons p ps ih =>
    have hcond : (p.game_id == gid) = false := by
      simp [h p (List.mem_cons_self p ps)]
    rw [sumFor_cons, hcond]
    simp [ih fun q hq => h q (List.mem_cons_of_mem p hq)]

/-- Specification of the group-and-sum loop tail on a sorted list whose
keys all dominate the open group's key `gid`: the open group closes with
value `acc` plus the total length of the remaining `gid`-plays, and every
later group carries exactly the total length of its key; later keys come
from the list, lie strictly above `gid`, cover every key of the list, and
are strictly increasing. -/
theorem groupSumsAux_spec (l : List PlayRecord) :
    ∀ gid acc, l.Pairwise (fun a b => a.game_id ≤ b.game_id) →
    (∀ p ∈ l, gid ≤ p.game_id) →
    ∃ rest, groupSumsAux gid acc l = (gid, acc + sumFor gid l) :: rest ∧
      (∀ kv ∈ rest, gid < kv.1 ∧ kv.2 = sumFor kv.1 l ∧
        kv.1 ∈ l.map PlayRecord.game_id) ∧
      (∀ k ∈ l.map PlayRecord.game_id, k = gid ∨ k ∈ rest.map Prod.fst) ∧
      rest.Pairwise (fun a b => a.1 < b.1) := by
  induction l with
  | nil =>
    intro gid acc _ _
    exact ⟨[], by simp [groupSumsAux, sumFor_nil], by simp, by simp, by simp⟩
  | cons p ps ih =>
    intro gid acc hsort hlb
    rw [List.pairwise_cons] at hsort
    obtain ⟨hp_le, hps_sort⟩ := hsort
    by_cases hpg : p.game_id = gid
    · have hcond : (p.game_id == gid) = true := by simp [hpg]
      obtain ⟨rest, hrec, hrest, hcover, hinc⟩ :=
        ih gid (acc + p.length) hps_sort
          (fun q hq => hlb q (List.mem_cons_of_mem p hq))
      refine ⟨rest, ?_, ?_, ?_, hinc⟩
      · rw [show groupSumsAux gid acc (p :: ps) =
              groupSumsAux gid (acc + p.length) ps by
            simp [groupSumsAux, hcond]]
        rw [hrec, sumFor_cons, hcond]
        simp [add_assoc]
      · intro kv hkv
        obtain ⟨h1, h2, h3⟩ := hrest kv hkv
        refine ⟨h1, ?_, List.mem_cons_of_mem _ h3⟩
        have hne2 : (p.game_id == kv.1) = false := by
          simp [hpg]
          exact fun he => absurd he.symm (ne_of_gt h1)
        rw [sumFor_cons, hne2, h2]
        simp
      · intro k hk
        rcases List.mem_cons.mp ((List.mem_map).mp hk).choose_spec.1 with _ | _
        · rcases List.mem_map.mp hk with ⟨x, hx, hxe⟩
          rcases List.mem_cons.mp hx with h1 | h1
          · left; rw [← hxe, h1, hpg]
          · exact hcover k (List.mem_map.mpr ⟨x, h1, hxe⟩)
        · rcases List.mem_map.mp hk with ⟨x, hx, hxe⟩
          rcases List.mem_cons.mp hx with h1 | h1
          · left; rw [← hxe, h1, hpg]
          · exact hcover k (List.mem_map.mpr ⟨x, h1, hxe⟩)
    · have hgt : gid < p.game_id :=
        lt_of_le_of_ne (hlb p (List.mem_cons_self p ps)) (Ne.symm hpg)
      have hcond : (p.game_id == gid) = false := by simp [hpg]
      obtain ⟨rest, hrec, hrest, hcover, hinc⟩ :=
        ih p.game_id p.length hps_sort hp_le
      refine ⟨(p.game_id, p.length + sumFor p.game_id ps) :: rest, ?_, ?_, ?_, ?_⟩
      · rw [show groupSumsAux gid acc (p :: ps) =
              (gid, acc) :: groupSumsAux p.game_id p.length ps by
            simp [groupSumsAux, hcond]]
        rw [hrec]
        have hz : sumFor gid (p :: ps) = 0 := by
          apply sumFor_eq_zero
          intro q hq
          rcases List.mem_cons.mp hq with h1 | h1
          · subst h1; exact hpg
          · exact ne_of_gt (lt_of_lt_of_le hgt (hp_le q h1))
        rw [hz]
        simp
      · intro kv hkv
        rcases List.mem_cons.mp hkv with h1 | h1
        · subst h1
          refine ⟨hgt, ?_, by simp⟩
          rw [sumFor_cons]
          simp
        · obtain ⟨h1a, h1b, h1c⟩ := hrest kv h1
          refine ⟨lt_trans hgt h1a, ?_, List.mem_cons_of_mem _ h1c⟩
          have hne2 : (p.game_id == kv.1) = false := by
            simp
            exact ne_of_lt h1a
          rw [sumFor_cons, hne2, h1b]
          simp
      · intro k hk
        rcases List.mem_map.mp hk with ⟨x, hx, hxe⟩
        rcases List.mem_cons.mp hx with h1 | h1
        · right
          apply List.mem_map.mpr
          exact ⟨(p.game_id, p.length + sumFor p.game_id ps),
                 List.mem_cons_self _ _, by rw [← hxe, h1]⟩
        · rcases hcover k (List.mem_map.mpr ⟨x, h1, hxe⟩) with h2 | h2
          · right
            apply List.mem_map.mpr
            exact ⟨(p.game_id, p.length + sumFor p.game_id ps),
                   List.mem_cons_self _ _, h2.symm⟩
          · right
            rcases List.mem_map.mp h2 with ⟨kv, hkv, hkve⟩
            exact List.mem_map.mpr ⟨kv, List.mem_cons_of_mem _ hkv, hkve⟩
      · rw [List.pairwise_cons]
        exact ⟨fun kv hkv => (hrest kv hkv).1, hinc⟩

/-- Specification of `groupSums` on a sorted list: every emitted pair
carries the total length of its key, the keys are exactly the ids of the
list, they are strictly increasing, and the output is nonempty whenever
the input is. -/
theorem groupSums_spec (l : List PlayRecord)
    (hsort : l.Pairwise (fun a b => a.game_id ≤ b.game_id)) :
    (∀ kv ∈ groupSums l, kv.2 = sumFor kv.1 l ∧
      kv.1 ∈ l.map PlayRecord.game_id) ∧
    (∀ k ∈ l.map PlayRecord.game_id, k ∈ (groupSums l).map Prod.fst) ∧
    (groupSums l).Pairwise (fun a b => a.1 < b.1) ∧
    (l ≠ [] → groupSums l ≠ []) := by
  cases l with
  | nil => simp [groupSums]
  | cons p ps =>
    rw [List.pairwise_cons] at hsort
    obtain ⟨hp_le, hps⟩ := hsort
    obtain ⟨rest, hrec, hrest, hcover, hinc⟩ :=
      groupSumsAux_spec ps p.game_id p.length hps hp_le
    have hgs : groupSums (p :: ps) =
        (p.game_id, p.length + sumFor p.game_id ps) :: rest := by
      rw [show groupSums (p :: ps) = groupSumsAux p.game_id p.length ps from rfl,
          hrec]
    refine ⟨?_, ?_, ?_, ?_⟩
    · intro kv hkv
      rw [hgs] at hkv
      rcases List.mem_cons.mp hkv with h1 | h1
      · subst h1
        refine ⟨?_, by simp⟩
        rw [sumFor_cons]
        simp
      · obtain ⟨h1a, h1b, h1c⟩ := hrest kv h1
        refine ⟨?_, List.mem_cons_of_mem _ h1c⟩
        have hne2 : (p.game_id == kv.1) = false := by
          simp
          exact ne_of_lt h1a
        rw [sumFor_cons, hne2, h1b]
        simp
    · intro k hk
      rw [hgs]
      rcases List.mem_map.mp hk with ⟨x, hx, hxe⟩
      rcases List.mem_cons.mp hx with h1 | h1
      · apply List.mem_map.mpr
        exact ⟨(p.game_id, p.length + sumFor p.game_id ps),
               List.mem_cons_self _ _, by rw [← hxe, h1]⟩
      · rcases hcover k (List.mem_map.mpr ⟨x, h1, hxe⟩) with h2 | h2
        · apply List.mem_map.mpr
          exact ⟨(p.game_id, p.length + sumFor p.game_id ps),
                 List.mem_cons_self _ _, h2.symm⟩
        · rcases List.mem_map.mp h2 with ⟨kv, hkv, hkve⟩
          exact List.mem_map.mpr ⟨kv, List.mem_cons_of_mem _ hkv, hkve⟩
    · rw [hgs, List.pairwise_cons]
      exact ⟨fun kv hkv => (hrest kv hkv).1, hinc⟩
    · intro _
      rw [hgs]
      simp

/-- Specification of the `max(..., key=lambda k: k[1])` loop tail: on a
list whose first components strictly increase, the result is drawn from
`best` and the list, its value dominates all of them, and among ties on
the value the result has the least first component. -/
theorem maxBySndAux_spec (l : List (Int × Int)) :
    ∀ best, (best :: l).Pairwise (fun a b => a.1 < b.1) →
    ∃ m, maxBySndAux best l = m ∧ (m = best ∨ m ∈ l) ∧ best.2 ≤ m.2 ∧
      (∀ x ∈ l, x.2 ≤ m.2) ∧
      (∀ x, (x = best ∨ x ∈ l) → x.2 = m.2 → m.1 ≤ x.1) := by
  induction l with
  | nil =>
    intro best _
    refine ⟨best, rfl, Or.inl rfl, le_refl _, by simp, ?_⟩
    intro x hx hxe
    rcases hx with h | h
    · subst h; exact le_refl _
    · cases h
  | cons y ys ih =>
    intro best hpw
    have hbestlt : ∀ z ∈ y :: ys, best.1 < z.1 := (List.pairwise_cons.mp hpw).1
    have hyys : (y :: ys).Pairwise (fun a b => a.1 < b.1) :=
      (List.pairwise_cons.mp hpw).2
    by_cases hgt : y.2 > best.2
    · obtain ⟨m, hm, hmem, hy_le, hall, hfirst⟩ := ih y hyys
      refine ⟨m, ?_, ?_, ?_, ?_, ?_⟩
      · simp [maxBySndAux, hgt, hm]
      · rcases hmem with h | h
        · exact Or.inr (by simp [h])
        · exact Or.inr (List.mem_cons_of_mem y h)
      · exact le_trans (le_of_lt hgt) hy_le
      · intro x hx
        rcases List.mem_cons.mp hx with h | h
        · subst h; exact hy_le
        · exact hall x h
      · intro x hx hxe
        rcases hx with h | h
        · subst h
          exact absurd hxe (ne_of_lt (lt_of_lt_of_le hgt hy_le))
        · rcases List.mem_cons.mp h with h1 | h1
          · exact hfirst x (Or.inl h1) hxe
          · exact hfirst x (Or.inr h1) hxe
    · have hpw2 : (best :: ys).Pairwise (fun a b => a.1 < b.1) := by
        rw [List.pairwise_cons]
        exact ⟨fun z hz => hbestlt z (List.mem_cons_of_mem y hz),
               List.Pairwise.of_cons hyys⟩
      obtain ⟨m, hm, hmem, hb_le, hall, hfirst⟩ := ih best hpw2
      refine ⟨m, ?_, ?_, hb_le, ?_, ?_⟩
      · simp [maxBySndAux, hgt, hm]
      · rcases hmem with h | h
        · exact Or.inl h
        · exact Or.inr (List.mem_cons_of_mem y h)
      · intro x hx
        rcases List.mem_cons.mp hx with h | h
        · subst h; exact le_trans (le_of_not_lt hgt) hb_le
        · exact hall x h
      · intro x hx hxe
        rcases hx with h | h
        · exact hfirst x (Or.inl h) hxe
        · rcases List.mem_cons.mp h with h1 | h1
          · subst h1
            have hyb : x.2 ≤ best.2 := le_of_not_lt hgt
            have h2 : best.2 = m.2 := le_antisymm hb_le (by rw [← hxe]; exact hyb)
            have h3 : m.1 ≤ best.1 := hfirst best (Or.inl rfl) h2
            exact le_of_lt (lt_of_le_of_lt h3
              (hbestlt x (List.mem_cons_self x ys)))
          · exact hfirst x (Or.inr h1) hxe

/-- Specification of `maxBySnd` on a nonempty list with strictly
increasing first components: it returns a member with maximal second
component and, among ties, the least first component. -/
theorem maxBySnd_spec (gs : List (Int × Int)) (hne : gs ≠ [])
    (hpw : gs.Pairwise (fun a b => a.1 < b.1)) :
    ∃ m, maxBySnd gs = some m ∧ m ∈ gs ∧ (∀ x ∈ gs, x.2 ≤ m.2) ∧
      (∀ x ∈ gs, x.2 = m.2 → m.1 ≤ x.1) := by
  cases gs with
  | nil => exact absurd rfl hne
  | cons x xs =>
    obtain ⟨m, hm, hmem, hx_le, hall, hfirst⟩ := maxBySndAux_spec xs x hpw
    refine ⟨m, by simp [maxBySnd, hm], ?_, ?_, ?_⟩
    · rcases hmem with h | h
      · subst h; exact List.mem_cons_self _ _
      · exact List.mem_cons_of_mem x h
    · intro z hz
      rcases List.mem_cons.mp hz with h | h
      · subst h; exact hx_le
      · exact hall z h
    · intro z hz he
      rcases List.mem_cons.mp hz with h | h
      · exact hfirst z (Or.inl h) he
      · exact hfirst z (Or.inr h) he

/-- C1: for a fetched nonempty record sequence, `most_played_game` returns
the game whose summed `length` over all its records is maximal, with ties
resolved in favour of the smallest `game_id` among the tied maxima; the
attached name and thumbnail come from the first record with the selected
id, and the attached time is that id's total length. -/
theorem most_played_game_spec (thumb : Int → String) (s : BggPlays)
    (data : List PlayRecord) (hd : s.data = some data) (hne : data ≠ []) :
    ∃ g t q, most_played_game thumb s =
        .ok { name := q.game_name, thumbnail := thumb q.game_id, time := t } ∧
      data.find? (fun r => r.game_id == g) = some q ∧ q.game_id = g ∧
      g ∈ data.map PlayRecord.game_id ∧ t = sumFor g data ∧
      (∀ k ∈ data.map PlayRecord.game_id, sumFor k data ≤ t) ∧
      (∀ k ∈ data.map PlayRecord.game_id, sumFor k data = t → g ≤ k) := by
  have hperm : List.Perm (sortPlays data) data := sortPlays_perm data
  have hsort := sortPlays_sorted data
  obtain ⟨hvals, hcover, hinc, hgne⟩ := groupSums_spec (sortPlays data) hsort
  have hsne : sortPlays data ≠ [] := by
    intro h
    rw [h] at hperm
    exact hne (List.Perm.nil_eq hperm).symm
  obtain ⟨m, hmax, hmem, hall, hfirst⟩ :=
    maxBySnd_spec (groupSums (sortPlays data)) (hgne hsne) hinc
  obtain ⟨hmval, hmkey⟩ := hvals m hmem
  have hkey_data : m.1 ∈ data.map PlayRecord.game_id :=
    (hperm.map PlayRecord.game_id).mem_iff.mp hmkey
  obtain ⟨x, hx_mem, hx_id⟩ : ∃ x ∈ data, x.game_id = m.1 := by
    rcases List.mem_map.mp hkey_data with ⟨x, hx, hxe⟩
    exact ⟨x, hx, hxe⟩
  obtain ⟨q, l1, l2, hfind, hq, hsplit, hnomatch⟩ :=
    findq_first (fun r => r.game_id == m.1) data x hx_mem (by simp [hx_id])
  have hqid : q.game_id = m.1 := by simpa using hq
  refine ⟨m.1, m.2, q, ?_, hfind, hqid, hkey_data, ?_, ?_, ?_⟩
  · simp only [most_played_game, hd]
    rw [hmax]
    simp [game_info_by_id, hd, hfind]
  · rw [hmval]
    exact sumFor_perm m.1 hperm
  · intro k hk
    have hk2 : k ∈ (sortPlays data).map PlayRecord.game_id :=
      (hperm.map PlayRecord.game_id).mem_iff.mpr hk
    rcases List.mem_map.mp (hcover k hk2) with ⟨kv, hkv_mem, hkv_fst⟩
    obtain ⟨hkv_val, _⟩ := hvals kv hkv_mem
    calc sumFor k data
        = sumFor k (sortPlays data) := (sumFor_perm k hperm).symm
      _ = kv.2 := by rw [hkv_val, hkv_fst]
      _ ≤ m.2 := hall kv hkv_mem
  · intro k hk hke
    have hk2 : k ∈ (sortPlays data).map PlayRecord.game_id :=
      (hperm.map PlayRecord.game_id).mem_iff.mpr hk
    rcases List.mem_map.mp (hcover k hk2) with ⟨kv, hkv_mem, hkv_fst⟩
    obtain ⟨hkv_val, _⟩ := hvals kv hkv_mem
    have hkv2 : kv.2 = m.2 := by
      rw [hkv_val, hkv_fst]
      rw [← hke]
      exact sumFor_perm k hperm
    have := hfirst kv hkv_mem hkv2
    rw [hkv_fst] at this
    exact this

/-- Fetched state with the spec's example records
`[{game_id:1,length:30},{game_id:2,length:10},{game_id:1,length:20}]`,
for the C1 witness. -/
def mostPlayedState : BggPlays :=
  { data := some [{ date := "2018-06-22", game_id := 1, game_name := "Azul",
                    comment := none, length := 30 },
                  { date := "2018-06-21", game_id := 2, game_name := "Catan",
                    comment := none, length := 10 },
                  { date := "2018-06-20", game_id := 1, game_name := "Azul",
                    comment := none, length := 20 }],
    username := "alice" }

/-- Witness for C1: on the example records the specification holds, and
the concrete result is game id 1's info with 50 total minutes. -/
theorem most_played_game_spec_witness :
    (mostPlayedState.data = some [{ date := "2018-06-22", game_id := 1,
                                    game_name := "Azul", comment := none,
                                    length := 30 },
                                  { date := "2018-06-21", game_id := 2,
                                    game_name := "Catan", comment := none,
                                    length := 10 },
                                  { date := "2018-06-20", game_id := 1,
                                    game_name := "Azul", comment := none,
                                    length := 20 }] ∧
     [({ date := "2018-06-22", game_id := 1, game_name := "Azul",
         comment := none, length := 30 } : PlayRecord),
      { date := "2018-06-21", game_id := 2, game_name := "Catan",
        comment := none, length := 10 },
      { date := "2018-06-20", game_id := 1, game_name := "Azul",
        comment := none, length := 20 }] ≠ []) ∧
    (∃ g t q, most_played_game (fun _ => "url") mostPlayedState =
        .ok { name := q.game_name, thumbnail := (fun _ => "url") q.game_id,
              time := t } ∧
      [({ date := "2018-06-22", game_id := 1, game_name := "Azul",
          comment := none, length := 30 } : PlayRecord),
       { date := "2018-06-21", game_id := 2, game_name := "Catan",
         comment := none, length := 10 },
       { date := "2018-06-20", game_id := 1, game_name := "Azul",
         comment := none, length := 20 }].find? (fun r => r.game_id == g) =
        some q ∧ q.game_id = g ∧
      g ∈ [({ date := "2018-06-22", game_id := 1, game_name := "Azul",
              comment := none, length := 30 } : PlayRecord),
           { date := "2018-06-21", game_id := 2, game_name := "Catan",
             comment := none, length := 10 },
           { date := "2018-06-20", game_id := 1, game_name := "Azul",
             comment := none, length := 20 }].map PlayRecord.game_id ∧
      t = sumFor g [({ date := "2018-06-22", game_id := 1, game_name := "Azul",
                       comment := none, length := 30 } : PlayRecord),
                    { date := "2018-06-21", game_id := 2, game_name := "Catan",
                      comment := none, length := 10 },
                    { date := "2018-06-20", game_id := 1, game_name := "Azul",
                      comment := none, length := 20 }] ∧
      (∀ k ∈ [({ date := "2018-06-22", game_id := 1, game_name := "Azul",
                 comment := none, length := 30 } : PlayRecord),
              { date := "2018-06-21", game_id := 2, game_name := "Catan",
                comment := none, length := 10 },
              { date := "2018-06-20", game_id := 1, game_name := "Azul",
                comment := none, length := 20 }].map PlayRecord.game_id,
        sumFor k [({ date := "2018-06-22", game_id := 1, game_name := "Azul",
                     comment := none, length := 30 } : PlayRecord),
                  { date := "2018-06-21", game_id := 2, game_name := "Catan",
                    comment := none, length := 10 },
                  { date := "2018-06-20", game_id := 1, game_name := "Azul",
                    comment := none, length := 20 }] ≤ t) ∧
      (∀ k ∈ [({ date := "2018-06-22", game_id := 1, game_name := "Azul",
                 comment := none, length := 30 } : PlayRecord),
              { date := "2018-06-21", game_id := 2, game_name := "Catan",
                comment := none, length := 10 },
              { date := "2018-06-20", game_id := 1, game_name := "Azul",
                comment := none, length := 20 }].map PlayRecord.game_id,
        sumFor k [({ date := "2018-06-22", game_id := 1, game_name := "Azul",
                     comment := none, length := 30 } : PlayRecord),
                  { date := "2018-06-21", game_id := 2, game_name := "Catan",
                    comment := none, length := 10 },
                  { date := "2018-06-20", game_id := 1, game_name := "Azul",
                    comment := none, length := 20 }] = t → g ≤ k)) ∧
    most_played_game (fun _ => "url") mostPlayedState =
      .ok { name := "Azul", thumbnail := "url", time := 50 } :=
  ⟨⟨rfl, by simp⟩,
   most_played_game_spec (fun _ => "url") mostPlayedState _ rfl (by simp),
   rfl⟩

/-- When every present comment value is a string, the comprehension count
is the length of the specification-side filter. -/
theorem countMatches_eq_filter (marker : String) (data : List PlayRecord)
    (hstr : ∀ p ∈ data, ∀ v, p.comment = some v → ∃ c, v = some c) :
    countMatches marker data =
      .ok ((data.filter (hasMarkerComment marker)).length) := by
  induction data with
  | nil => rfl
  | cons p ps ih =>
    have ihps := ih fun q hq => hstr q (List.mem_cons_of_mem p hq)
    cases hc : p.comment with
    | none =>
      simp [countMatches, commentHas, hc, ihps, List.filter_cons,
            hasMarkerComment]
    | some v =>
      obtain ⟨c, rfl⟩ := hstr p (List.mem_cons_self p ps) v hc
      by_cases hm : substrMem marker c = true
      · simp [countMatches, commentHas, hc, ihps, List.filter_cons,
              hasMarkerComment, hm]
      · simp [countMatches, commentHas, hc, ihps, List.filter_cons,
              hasMarkerComment, hm]

/-- Fetched state with a single record whose `comment` key is present with
Python `None` (as `fetch_data` builds it from a `<comments/>` second child
without text), for the C2 counterexample. -/
def noneCommentState : BggPlays :=
  { data := some [{ date := "2018-06-22", game_id := 1, game_name := "Azul",
                    comment := some none, length := 30 }],
    username := "alice" }

/-- C2 counterexample: on a fetched sequence whose only record's comment
value is Python `None` — so no comment contains either marker —
`cooperative_game_statistics` fails with the `TypeError` raised inside the
wins comprehension, not with the claimed division-by-zero condition. -/
theorem coop_zero_division_counterexample :
    cooperative_game_statistics noneCommentState = .error PyError.typeError ∧
    (Except.error PyError.typeError : Except PyError CoopStats) ≠
      .error PyError.zeroDivisionError :=
  ⟨rfl, by simp⟩

/-- C2 (amended): when every record's comment key is absent or holds a
string — none holds Python `None`, on which the tally comprehensions
would raise `TypeError` first — and no such string contains the win or
the loss marker, both tallies are zero and `cooperative_game_statistics`
fails with the division-by-zero condition. -/
theorem coop_zero_division (s : BggPlays) (data : List PlayRecord)
    (hd : s.data = some data)
    (hno : ∀ p ∈ data, ∀ v, p.comment = some v →
      ∃ c, v = some c ∧ substrMem WON_TEXT c = false ∧
        substrMem LOST_TEXT c = false) :
    cooperative_game_statistics s = .error .zeroDivisionError := by
  have hstr : ∀ p ∈ data, ∀ v, p.comment = some v → ∃ c, v = some c := by
    intro p hp v hv
    obtain ⟨c, hc, _, _⟩ := hno p hp v hv
    exact ⟨c, hc⟩
  have hw : data.filter (hasMarkerComment WON_TEXT) = [] := by
    rw [List.filter_eq_nil_iff]
    intro p hp
    cases hc : p.comment with
    | none => simp [hasMarkerComment, hc]
    | some v =>
      obtain ⟨c, rfl, hcw, _⟩ := hno p hp v hc
      simp [hasMarkerComment, hc, hcw]
  have hl : data.filter (hasMarkerComment LOST_TEXT) = [] := by
    rw [List.filter_eq_nil_iff]
    intro p hp
    cases hc : p.comment with
    | none => simp [hasMarkerComment, hc]
    | some v =>
      obtain ⟨c, rfl, _, hcl⟩ := hno p hp v hc
      simp [hasMarkerComment, hc, hcl]
  simp [cooperative_game_statistics, hd,
        countMatches_eq_filter WON_TEXT data hstr,
        countMatches_eq_filter LOST_TEXT data hstr, hw, hl]

/-- Fetched state with no win or loss markers and no `None`-valued
comment, for the C2 witness. -/
def noMarkerState : BggPlays :=
  { data := some [{ date := "2018-06-22", game_id := 1, game_name := "Azul",
                    comment := some (some "great fun"), length := 30 },
                  { date := "2018-06-21", game_id := 2, game_name := "Catan",
                    comment := none, length := 10 }],
    username := "alice" }

/-- Witness for C2's amended statement at a concrete marker-free fetched
state. -/
theorem coop_zero_division_witness :
    noMarkerState.data = some [{ date := "2018-06-22", game_id := 1,
                                 game_name := "Azul",
                                 comment := some (some "great fun"),
                                 length := 30 },
                               { date := "2018-06-21", game_id := 2,
                                 game_name := "Catan",
                                 comment := none, length := 10 }] ∧
    cooperative_game_statistics noMarkerState = .error .zeroDivisionError :=
  ⟨rfl, coop_zero_division noMarkerState _ rfl (by
    intro p hp v hv
    rcases List.mem_cons.mp hp with h | h
    · subst h
      injection hv with h2
      subst h2
      exact ⟨"great fun", rfl, by decide, by decide⟩
    · rcases List.mem_cons.mp h with h1 | h1
      · subst h1
        exact Option.noConfusion hv
      · cases h1)⟩

/-- Fetched state holding a record whose comment contains both markers
together with a record whose comment value is Python `None`, for the C8
counterexample. -/
def bothMarkersNoneState : BggPlays :=
  { data := some [{ date := "2018-06-22", game_id := 1, game_name := "Azul",
                    comment := some (some "Won then Lost"), length := 30 },
                  { date := "2018-06-21", game_id := 2, game_name := "Catan",
                    comment := some none, length := 10 }],
    username := "alice" }

/-- C8 counterexample: the fetched sequence contains a record whose
comment holds both markers, yet `cooperative_game_statistics` produces no
tallies at all — the wins comprehension raises `TypeError` at the
sequence's `None`-valued comment — so the record is counted in neither
tally, refuting the claim for this sequence. -/
theorem coop_double_count_counterexample :
    substrMem WON_TEXT "Won then Lost" = true ∧
    substrMem LOST_TEXT "Won then Lost" = true ∧
    cooperative_game_statistics bothMarkersNoneState =
      .error PyError.typeError ∧
    (cooperative_game_statistics bothMarkersNoneState).isOk = false :=
  ⟨by decide, by decide, rfl, rfl⟩

/-- C8 (amended): provided every present comment value is a string — the
comprehensions raise `TypeError` on a Python `None` value — a fetched
record whose comment contains both the win marker and the loss marker is
counted in the wins tally and, again, in the losses tally of
`cooperative_game_statistics`: in both, not in just one. -/
theorem coop_double_count (s : BggPlays) (data : List PlayRecord)
    (p : PlayRecord) (c : String) (hd : s.data = some data) (hp : p ∈ data)
    (hc : p.comment = some (some c))
    (hw : substrMem WON_TEXT c = true) (hl : substrMem LOST_TEXT c = true)
    (hstr : ∀ q ∈ data, ∀ v, q.comment = some v → ∃ d, v = some d) :
    p ∈ data.filter hasWonComment ∧ p ∈ data.filter hasLostComment ∧
    ∃ st, cooperative_game_statistics s = .ok st ∧
      st.wins = (data.filter hasWonComment).length ∧
      st.losses = (data.filter hasLostComment).length ∧
      1 ≤ st.wins ∧ 1 ≤ st.losses := by
  have hwp : hasWonComment p = true := by
    simp [hasWonComment, hasMarkerComment, hc, hw]
  have hlp : hasLostComment p = true := by
    simp [hasLostComment, hasMarkerComment, hc, hl]
  have hmw : p ∈ data.filter hasWonComment := List.mem_filter.mpr ⟨hp, hwp⟩
  have hml : p ∈ data.filter hasLostComment := List.mem_filter.mpr ⟨hp, hlp⟩
  have hw1 : 0 < (data.filter hasWonComment).length :=
    List.length_pos_of_mem hmw
  have hl1 : 0 < (data.filter hasLostComment).length :=
    List.length_pos_of_mem hml
  have hne : (data.filter hasWonComment).length +
      (data.filter hasLostComment).length ≠ 0 :=
    Nat.pos_iff_ne_zero.mp (Nat.add_pos_left hw1 _)
  have hcw := countMatches_eq_filter WON_TEXT data hstr
  have hcl := countMatches_eq_filter LOST_TEXT data hstr
  refine ⟨hmw, hml,
    ⟨(data.filter hasWonComment).length, (data.filter hasLostComment).length,
     pyWinPercentage (data.filter hasWonComment).length
       (data.filter hasLostComment).length⟩, ?_, rfl, rfl, hw1, hl1⟩
  simp only [cooperative_game_statistics, hd, hcw, hcl]
  exact if_neg hne

/-- Fetched state with one record whose comment holds both markers, for
the C8 witness. -/
def bothMarkersState : BggPlays :=
  { data := some [{ date := "2018-06-22", game_id := 1, game_name := "Azul",
                    comment := some (some "Won then Lost"), length := 30 }],
    username := "alice" }

/-- Witness for C8's amended statement: the record commented
"Won then Lost" lands in both tallies, and the concrete result counts it
in each. -/
theorem coop_double_count_witness :
    (bothMarkersState.data = some [{ date := "2018-06-22", game_id := 1,
                                     game_name := "Azul",
                                     comment := some (some "Won then Lost"),
                                     length := 30 }] ∧
     ({ date := "2018-06-22", game_id := 1, game_name := "Azul",
        comment := some (some "Won then Lost"), length := 30 } : PlayRecord) ∈
       [({ date := "2018-06-22", game_id := 1, game_name := "Azul",
           comment := some (some "Won then Lost"), length := 30 } :
         PlayRecord)] ∧
     substrMem WON_TEXT "Won then Lost" = true ∧
     substrMem LOST_TEXT "Won then Lost" = true) ∧
    (({ date := "2018-06-22", game_id := 1, game_name := "Azul",
        comment := some (some "Won then Lost"), length := 30 } : PlayRecord) ∈
       [({ date := "2018-06-22", game_id := 1, game_name := "Azul",
           comment := some (some "Won then Lost"), length := 30 } :
         PlayRecord)].filter hasWonComment ∧
     ({ date := "2018-06-22", game_id := 1, game_name := "Azul",
        comment := some (some "Won then Lost"), length := 30 } : PlayRecord) ∈
       [({ date := "2018-06-22", game_id := 1, game_name := "Azul",
           comment := some (some "Won then Lost"), length := 30 } :
         PlayRecord)].filter hasLostComment ∧
     ∃ st, cooperative_game_statistics bothMarkersState = .ok st ∧
       st.wins = ([({ date := "2018-06-22", game_id := 1, game_name := "Azul",
                      comment := some (some "Won then Lost"), length := 30 } :
                    PlayRecord)].filter hasWonComment).length ∧
       st.losses = ([({ date := "2018-06-22", game_id := 1,
                        game_name := "Azul",
                        comment := some (some "Won then Lost"),
                        length := 30 } :
                      PlayRecord)].filter hasLostComment).length ∧
       1 ≤ st.wins ∧ 1 ≤ st.losses) ∧
    cooperative_game_statistics bothMarkersState =
      .ok { wins := 1, losses := 1, win_percentage := 50 } :=
  ⟨⟨rfl, by decide, by decide, by decide⟩,
   coop_double_count bothMarkersState _ _ "Won then Lost" rfl (by decide) rfl
     (by decide) (by decide) (by
       intro q hq v hv
       rcases List.mem_cons.mp hq with h | h
       · subst h
         injection hv with h2
         subst h2
         exact ⟨"Won then Lost", rfl⟩
       · cases h),
   rfl⟩

/-- `bitLenAux` is an upper bit bound: `n < 2 ^ bitLenAux fuel n` when the
fuel suffices. -/
theorem bitLenAux_lt (fuel : ℕ) : ∀ n, n ≤ fuel → n < 2 ^ bitLenAux fuel n := by
  induction fuel with
  | zero =>
    intro n hn
    have hn0 : n = 0 := Nat.le_zero.mp hn
    subst hn0
    simp [bitLenAux]
  | succ fuel ih =>
    intro n hn
    cases n with
    | zero => simp [bitLenAux]
    | succ m =>
      have hk : (m + 1) / 2 ≤ fuel := by omega
      have h := ih ((m + 1) / 2) hk
      have h2 : m + 1 ≤ 2 * ((m + 1) / 2) + 1 := by omega
      rw [show bitLenAux (fuel + 1) (m + 1) =
            bitLenAux fuel ((m + 1) / 2) + 1 from rfl]
      rw [pow_succ]
      omega

/-- `bitLenAux` is positive on positive input with positive fuel. -/
theorem bitLenAux_pos (fuel n : ℕ) (hn : 0 < n) (hfuel : n ≤ fuel) :
    0 < bitLenAux fuel n := by
  cases fuel with
  | zero => omega
  | succ fuel =>
    cases n with
    | zero => omega
    | succ m =>
      rw [show bitLenAux (fuel + 1) (m + 1) =
            bitLenAux fuel ((m + 1) / 2) + 1 from rfl]
      omega

/-- `bitLenAux` is a lower bit bound: `2 ^ (bitLenAux fuel n - 1) ≤ n` for
positive `n` when the fuel suffices. -/
theorem bitLenAux_le (fuel : ℕ) :
    ∀ n, n ≤ fuel → 0 < n → 2 ^ (bitLenAux fuel n - 1) ≤ n := by
  induction fuel with
  | zero => omega
  | succ fuel ih =>
    intro n hn hn0
    cases n with
    | zero => omega
    | succ m =>
      rw [show bitLenAux (fuel + 1) (m + 1) =
            bitLenAux fuel ((m + 1) / 2) + 1 from rfl]
      by_cases hk0 : (m + 1) / 2 = 0
      · have hm : m = 0 := by omega
        subst hm
        simp [hk0, bitLenAux]
      · have hk : (m + 1) / 2 ≤ fuel := by omega
        have h := ih ((m + 1) / 2) hk (Nat.pos_of_ne_zero hk0)
        have hpos := bitLenAux_pos fuel ((m + 1) / 2) (Nat.pos_of_ne_zero hk0) hk
        have h2 : 2 ^ (bitLenAux fuel ((m + 1) / 2) - 1 + 1) ≤
            2 * ((m + 1) / 2) := by
          rw [pow_succ]
          omega
        have h3 : bitLenAux fuel ((m + 1) / 2) - 1 + 1 =
            bitLenAux fuel ((m + 1) / 2) := by omega
        rw [h3] at h2
        have h4 : 2 * ((m + 1) / 2) ≤ m + 1 := by omega
        simpa using le_trans h2 h4

/-- Upper bit bound for `bitLen`. -/
theorem bitLen_lt (n : ℕ) : n < 2 ^ bitLen n := bitLenAux_lt n n le_rfl

/-- Lower bit bound for `bitLen`. -/
theorem bitLen_le (n : ℕ) (hn : 0 < n) : 2 ^ (bitLen n - 1) ≤ n :=
  bitLenAux_le n n le_rfl hn

/-- `bitLen` is positive on positive input. -/
theorem bitLen_pos (n : ℕ) (hn : 0 < n) : 0 < bitLen n :=
  bitLenAux_pos n n hn le_rfl

/-- Splitting an integer power of two across the `toNat` of an exponent
and of its negation. -/
theorem zpow_toNat_sub (e : ℤ) :
    (2 : ℚ) ^ e * 2 ^ (-e).toNat = 2 ^ e.toNat := by
  have h : e + ((-e).toNat : ℤ) = (e.toNat : ℤ) := by omega
  rw [← zpow_natCast (2 : ℚ) (-e).toNat, ← zpow_add₀ (two_ne_zero) e,
      h, zpow_natCast]

/-- A power of two and its reciprocal power cancel. -/
theorem zpow_neg_mul_zpow (e : ℤ) : (2 : ℚ) ^ (-e) * 2 ^ e = 1 := by
  rw [← zpow_add₀ (two_ne_zero : (2:ℚ) ≠ 0) (-e) e]
  simp

/-- The all-natural comparison used by `fracLog2` decides the rational
comparison `a / b < 2 ^ e`. -/
theorem fracLt_iff (a b : ℕ) (hb : 0 < b) (e : ℤ) :
    (a * 2 ^ (-e).toNat < b * 2 ^ e.toNat) ↔ ((a : ℚ) / b < 2 ^ e) := by
  have hbq : (0 : ℚ) < b := by exact_mod_cast hb
  have hpos : (0 : ℚ) < 2 ^ (-e).toNat := by positivity
  rw [div_lt_iff₀ hbq]
  constructor
  · intro h
    have h2 : ((a * 2 ^ (-e).toNat : ℕ) : ℚ) < ((b * 2 ^ e.toNat : ℕ) : ℚ) := by
      exact_mod_cast h
    push_cast at h2
    have h3 : (a : ℚ) * 2 ^ (-e).toNat < 2 ^ e * (b : ℚ) * 2 ^ (-e).toNat := by
      calc (a : ℚ) * 2 ^ (-e).toNat < (b : ℚ) * 2 ^ (e.toNat : ℕ) := h2
        _ = 2 ^ e * (b : ℚ) * 2 ^ (-e).toNat := by
            rw [← zpow_toNat_sub e]; ring
    exact lt_of_mul_lt_mul_right h3 hpos.le
  · intro h
    have h3 : (a : ℚ) * 2 ^ (-e).toNat < 2 ^ e * (b : ℚ) * 2 ^ (-e).toNat :=
      mul_lt_mul_of_pos_right h hpos
    have h4 : (a : ℚ) * 2 ^ (-e).toNat < (b : ℚ) * 2 ^ (e.toNat : ℕ) := by
      calc (a : ℚ) * 2 ^ (-e).toNat < 2 ^ e * (b : ℚ) * 2 ^ (-e).toNat := h3
        _ = (b : ℚ) * 2 ^ (e.toNat : ℕ) := by rw [← zpow_toNat_sub e]; ring
    exact_mod_cast h4

/-- Characterisation of `fracLog2`: for positive `a` and `b` it is the
floor of the base-2 logarithm of `a / b`. -/
theorem fracLog2_spec (a b : ℕ) (ha : 0 < a) (hb : 0 < b) :
    (2 : ℚ) ^ fracLog2 a b ≤ (a : ℚ) / b ∧
      (a : ℚ) / b < 2 ^ (fracLog2 a b + 1) := by
  have hbq : (0 : ℚ) < b := by exact_mod_cast hb
  have hsa := bitLen_pos a ha
  have hsb := bitLen_pos b hb
  have hau : (a : ℚ) < 2 ^ (bitLen a : ℕ) := by exact_mod_cast bitLen_lt a
  have hal : ((2 : ℚ)) ^ ((bitLen a - 1 : ℕ)) ≤ a := by
    exact_mod_cast bitLen_le a ha
  have hbu : (b : ℚ) < 2 ^ (bitLen b : ℕ) := by exact_mod_cast bitLen_lt b
  have hbl : ((2 : ℚ)) ^ ((bitLen b - 1 : ℕ)) ≤ b := by
    exact_mod_cast bitLen_le b hb
  have hca : ((2 : ℚ)) ^ ((bitLen a - 1 : ℕ)) =
      2 ^ ((bitLen a : ℤ) - 1) := by
    rw [← zpow_natCast]
    congr 1
    omega
  have hcb : ((2 : ℚ)) ^ ((bitLen b - 1 : ℕ)) =
      2 ^ ((bitLen b : ℤ) - 1) := by
    rw [← zpow_natCast]
    congr 1
    omega
  have hcau : ((2 : ℚ)) ^ ((bitLen a : ℕ)) = 2 ^ ((bitLen a : ℤ)) := by
    rw [← zpow_natCast]
  have hcbu : ((2 : ℚ)) ^ ((bitLen b : ℕ)) = 2 ^ ((bitLen b : ℤ)) := by
    rw [← zpow_natCast]
  rw [fracLog2]
  by_cases hcond : a * 2 ^ (-((bitLen a : ℤ) - (bitLen b : ℤ))).toNat <
      b * 2 ^ ((bitLen a : ℤ) - (bitLen b : ℤ)).toNat
  · rw [if_pos hcond]
    have hlt := (fracLt_iff a b hb _).mp hcond
    constructor
    · rw [le_div_iff₀ hbq]
      have step : (2 : ℚ) ^ ((bitLen a : ℤ) - (bitLen b : ℤ) - 1) * b <
          2 ^ ((bitLen a : ℤ) - 1) := by
        calc (2 : ℚ) ^ ((bitLen a : ℤ) - (bitLen b : ℤ) - 1) * b
            < 2 ^ ((bitLen a : ℤ) - (bitLen b : ℤ) - 1) *
                2 ^ ((bitLen b : ℤ)) := by
              apply mul_lt_mul_of_pos_left (by rw [← hcbu]; exact hbu)
              positivity
          _ = 2 ^ ((bitLen a : ℤ) - 1) := by
              rw [← zpow_add₀ (two_ne_zero : (2:ℚ) ≠ 0)]
              congr 1
              ring
      calc (2 : ℚ) ^ ((bitLen a : ℤ) - (bitLen b : ℤ) - 1) * b
          ≤ 2 ^ ((bitLen a : ℤ) - 1) := le_of_lt step
        _ ≤ a := by rw [← hca]; exact hal
    · calc (a : ℚ) / b < 2 ^ ((bitLen a : ℤ) - (bitLen b : ℤ)) := hlt
        _ = 2 ^ ((bitLen a : ℤ) - (bitLen b : ℤ) - 1 + 1) := by congr 1; ring
  · rw [if_neg hcond]
    constructor
    · exact not_lt.mp fun h => hcond ((fracLt_iff a b hb _).mpr h)
    · rw [div_lt_iff₀ hbq]
      have step : (a : ℚ) < 2 ^ ((bitLen a : ℤ) - (bitLen b : ℤ) + 1) *
          2 ^ ((bitLen b : ℤ) - 1) := by
        calc (a : ℚ) < 2 ^ ((bitLen a : ℤ)) := by rw [← hcau]; exact hau
          _ = 2 ^ ((bitLen a : ℤ) - (bitLen b : ℤ) + 1) *
                2 ^ ((bitLen b : ℤ) - 1) := by
              rw [← zpow_add₀ (two_ne_zero : (2:ℚ) ≠ 0)]
              congr 1
              ring
      calc (a : ℚ) < 2 ^ ((bitLen a : ℤ) - (bitLen b : ℤ) + 1) *
            2 ^ ((bitLen b : ℤ) - 1) := step
        _ ≤ 2 ^ ((bitLen a : ℤ) - (bitLen b : ℤ) + 1) * b := by
            apply mul_le_mul_of_nonneg_left (by rw [← hcb]; exact hbl)
            positivity

/-- `fracLog2` is bounded by any exponent dominating the fraction. -/
theorem fracLog2_le_of_le (a b : ℕ) (ha : 0 < a) (hb : 0 < b) (c : ℤ)
    (h : (a : ℚ) / b ≤ 2 ^ c) : fracLog2 a b ≤ c := by
  by_contra hcon
  push_neg at hcon
  have h1 := (fracLog2_spec a b ha hb).1
  have h2 : (2 : ℚ) ^ (c + 1) ≤ 2 ^ fracLog2 a b :=
    zpow_le_zpow_right₀ (by norm_num) (by omega)
  have h3 : (2 : ℚ) ^ c < 2 ^ (c + 1) :=
    zpow_lt_zpow_right₀ (by norm_num) (by omega)
  linarith

/-- `rneFrac` from above: within half of the exact quotient. -/
theorem rneFrac_le (a b : ℕ) (hb : 0 < b) :
    (rneFrac a b : ℚ) ≤ (a : ℚ) / b + 1 / 2 := by
  have hbq : (0 : ℚ) < b := by exact_mod_cast hb
  have hid0 : (b : ℚ) * ((a / b : ℕ) : ℚ) + ((a % b : ℕ) : ℚ) = (a : ℚ) := by
    exact_mod_cast Nat.div_add_mod a b
  have hid : (a : ℚ) / b = ((a / b : ℕ) : ℚ) + ((a % b : ℕ) : ℚ) / b := by
    rw [← hid0]
    field_simp
    ring
  rw [rneFrac, hid]
  by_cases h1 : 2 * (a % b) < b
  · rw [if_pos h1]
    have h2 : (0 : ℚ) ≤ ((a % b : ℕ) : ℚ) / b := by positivity
    linarith
  · rw [if_neg h1]
    have hnat : b ≤ (a % b) * 2 := by omega
    have hfrac : (1 : ℚ) / 2 ≤ ((a % b : ℕ) : ℚ) / b := by
      rw [div_le_div_iff₀ (by norm_num) hbq]
      calc (1 : ℚ) * b = (b : ℚ) := one_mul _
        _ ≤ ((a % b : ℕ) : ℚ) * 2 := by exact_mod_cast hnat
    by_cases h2 : 2 * (a % b) > b
    · rw [if_pos h2, Nat.cast_add, Nat.cast_one]
      linarith
    · rw [if_neg h2]
      by_cases h3 : a / b % 2 = 0
      · rw [if_pos h3]
        linarith
      · rw [if_neg h3, Nat.cast_add, Nat.cast_one]
        linarith

/-- `rneFrac` from below: within half of the exact quotient. -/
theorem rneFrac_ge (a b : ℕ) (hb : 0 < b) :
    (a : ℚ) / b - 1 / 2 ≤ (rneFrac a b : ℚ) := by
  have hbq : (0 : ℚ) < b := by exact_mod_cast hb
  have hid0 : (b : ℚ) * ((a / b : ℕ) : ℚ) + ((a % b : ℕ) : ℚ) = (a : ℚ) := by
    exact_mod_cast Nat.div_add_mod a b
  have hid : (a : ℚ) / b = ((a / b : ℕ) : ℚ) + ((a % b : ℕ) : ℚ) / b := by
    rw [← hid0]
    field_simp
    ring
  rw [rneFrac, hid]
  have hmod : a % b < b := Nat.mod_lt a hb
  have hfrac1 : ((a % b : ℕ) : ℚ) / b < 1 := by
    rw [div_lt_one hbq]
    exact_mod_cast hmod
  by_cases h1 : 2 * (a % b) < b
  · rw [if_pos h1]
    have hnat : (a % b) * 2 ≤ b := by omega
    have hfrac : ((a % b : ℕ) : ℚ) / b ≤ 1 / 2 := by
      rw [div_le_div_iff₀ hbq (by norm_num)]
      calc ((a % b : ℕ) : ℚ) * 2 ≤ (b : ℚ) := by exact_mod_cast hnat
        _ = 1 * b := (one_mul _).symm
    linarith
  · rw [if_neg h1]
    have h2 : (0 : ℚ) ≤ ((a % b : ℕ) : ℚ) / b := by positivity
    by_cases h2b : 2 * (a % b) > b
    · rw [if_pos h2b, Nat.cast_add, Nat.cast_one]
      linarith
    · rw [if_neg h2b]
      have hnat2 : (a % b) * 2 ≤ b := by omega
      have hfrac2 : ((a % b : ℕ) : ℚ) / b ≤ 1 / 2 := by
        rw [div_le_div_iff₀ hbq (by norm_num)]
        calc ((a % b : ℕ) : ℚ) * 2 ≤ (b : ℚ) := by exact_mod_cast hnat2
          _ = 1 * b := (one_mul _).symm
      by_cases h3 : a / b % 2 = 0
      · rw [if_pos h3]
        linarith
      · rw [if_neg h3, Nat.cast_add, Nat.cast_one]
        linarith

/-- `rneFrac` never exceeds an integer bound on the quotient. -/
theorem rneFrac_le_of_le (a b N : ℕ) (hb : 0 < b)
    (h : (a : ℚ) / b ≤ N) : rneFrac a b ≤ N := by
  have h1 := rneFrac_le a b hb
  have h2 : (rneFrac a b : ℚ) < (N : ℚ) + 1 := by linarith
  have h3 : rneFrac a b < N + 1 := by exact_mod_cast h2
  omega

/-- Exact rational value of the dyadic pair returned by
`roundFracToDouble`: the measure the specification theorems reason
about. -/
def doubleVal (a b : ℕ) : ℚ :=
  ((roundFracToDouble a b).1 : ℚ) / ((roundFracToDouble a b).2 : ℚ)

/-- The dyadic pair of `roundFracToDouble` denotes
`mantissa * 2 ^ ulp-exponent`. -/
theorem doubleVal_eq (a b : ℕ) :
    doubleVal a b = (mantissaFor a b : ℚ) * 2 ^ ulpExpFor a b := by
  have hp : (0 : ℚ) < 2 ^ (-(ulpExpFor a b)).toNat := by positivity
  show ((mantissaFor a b * 2 ^ (ulpExpFor a b).toNat : ℕ) : ℚ) /
      ((2 ^ (-(ulpExpFor a b)).toNat : ℕ) : ℚ) = _
  push_cast
  rw [div_eq_iff hp.ne']
  rw [mul_assoc, zpow_toNat_sub]

/-- Rescaling a fraction by a power of two through natural numbers. -/
theorem scaled_frac (a b : ℕ) (hb : 0 < b) (E : ℤ) :
    ((a * 2 ^ (-E).toNat : ℕ) : ℚ) / ((b * 2 ^ E.toNat : ℕ) : ℚ) =
      ((a : ℚ) / b) * 2 ^ (-E) := by
  have hbq : (0 : ℚ) < b := by exact_mod_cast hb
  have h2 : (0 : ℚ) < 2 ^ E.toNat := by positivity
  have key : ((2 : ℚ)) ^ ((-E).toNat) = 2 ^ (-E) * 2 ^ E.toNat := by
    have h := zpow_toNat_sub (-E)
    rw [neg_neg] at h
    exact h.symm
  push_cast
  rw [key]
  field_simp
  ring

/-- `roundFracToDouble` is within half an ulp of the exact quotient. -/
theorem doubleVal_err (a b : ℕ) (hb : 0 < b) :
    |doubleVal a b - (a : ℚ) / b| ≤ 2 ^ ulpExpFor a b / 2 := by
  have hB : 0 < b * 2 ^ (ulpExpFor a b).toNat :=
    Nat.mul_pos hb (pow_pos (by norm_num) _)
  have h1 := rneFrac_le (a * 2 ^ (-(ulpExpFor a b)).toNat)
    (b * 2 ^ (ulpExpFor a b).toNat) hB
  have h2 := rneFrac_ge (a * 2 ^ (-(ulpExpFor a b)).toNat)
    (b * 2 ^ (ulpExpFor a b).toNat) hB
  rw [scaled_frac a b hb (ulpExpFor a b)] at h1 h2
  have h1m : (mantissaFor a b : ℚ) ≤
      ((a : ℚ) / b) * 2 ^ (-(ulpExpFor a b)) + 1 / 2 := h1
  have h2m : ((a : ℚ) / b) * 2 ^ (-(ulpExpFor a b)) - 1 / 2 ≤
      (mantissaFor a b : ℚ) := h2
  have hpE : (0 : ℚ) < 2 ^ ulpExpFor a b := zpow_pos (by norm_num) _
  have hinv : (2 : ℚ) ^ (-(ulpExpFor a b)) * 2 ^ ulpExpFor a b = 1 :=
    zpow_neg_mul_zpow _
  rw [doubleVal_eq, abs_le]
  constructor
  · have hmul := mul_le_mul_of_nonneg_right h2m hpE.le
    have hexp : (((a : ℚ) / b) * 2 ^ (-(ulpExpFor a b)) - 1 / 2) *
        2 ^ ulpExpFor a b =
        (a : ℚ) / b * ((2 : ℚ) ^ (-(ulpExpFor a b)) * 2 ^ ulpExpFor a b) -
          2 ^ ulpExpFor a b / 2 := by ring
    rw [hexp, hinv, mul_one] at hmul
    linarith
  · have hmul := mul_le_mul_of_nonneg_right h1m hpE.le
    have hexp : (((a : ℚ) / b) * 2 ^ (-(ulpExpFor a b)) + 1 / 2) *
        2 ^ ulpExpFor a b =
        (a : ℚ) / b * ((2 : ℚ) ^ (-(ulpExpFor a b)) * 2 ^ ulpExpFor a b) +
          2 ^ ulpExpFor a b / 2 := by ring
    rw [hexp, hinv, mul_one] at hmul
    linarith

/-- `roundFracToDouble` denotes a non-negative value. -/
theorem doubleVal_nonneg (a b : ℕ) : 0 ≤ doubleVal a b := by
  rw [doubleVal_eq]
  positivity

/-- `roundFracToDouble` never exceeds an ulp-aligned bound dominating the
quotient. -/
theorem doubleVal_le (a b N : ℕ) (hb : 0 < b)
    (h : (a : ℚ) / b ≤ (N : ℚ) * 2 ^ ulpExpFor a b) :
    doubleVal a b ≤ (N : ℚ) * 2 ^ ulpExpFor a b := by
  have hB : 0 < b * 2 ^ (ulpExpFor a b).toNat :=
    Nat.mul_pos hb (pow_pos (by norm_num) _)
  have hpE : (0 : ℚ) < 2 ^ ulpExpFor a b := zpow_pos (by norm_num) _
  have hpnE : (0 : ℚ) ≤ 2 ^ (-(ulpExpFor a b)) := (zpow_pos (by norm_num) _).le
  have hinv : (2 : ℚ) ^ (-(ulpExpFor a b)) * 2 ^ ulpExpFor a b = 1 :=
    zpow_neg_mul_zpow _
  have hscaled : ((a * 2 ^ (-(ulpExpFor a b)).toNat : ℕ) : ℚ) /
      ((b * 2 ^ (ulpExpFor a b).toNat : ℕ) : ℚ) ≤ N := by
    rw [scaled_frac a b hb (ulpExpFor a b)]
    calc ((a : ℚ) / b) * 2 ^ (-(ulpExpFor a b))
        ≤ ((N : ℚ) * 2 ^ ulpExpFor a b) * 2 ^ (-(ulpExpFor a b)) :=
          mul_le_mul_of_nonneg_right h hpnE
      _ = (N : ℚ) * ((2 : ℚ) ^ (-(ulpExpFor a b)) * 2 ^ ulpExpFor a b) := by
          ring
      _ = N := by rw [hinv, mul_one]
  have hm : mantissaFor a b ≤ N := rneFrac_le_of_le _ _ N hB hscaled
  rw [doubleVal_eq]
  apply mul_le_mul_of_nonneg_right _ hpE.le
  exact_mod_cast hm

/-- The ulp exponent is bounded through any exponent dominating the
fraction. -/
theorem ulpExpFor_le (a b : ℕ) (ha : 0 < a) (hb : 0 < b) (c : ℤ)
    (h : (a : ℚ) / b ≤ 2 ^ c) : ulpExpFor a b ≤ max (c - 52) (-1074) := by
  have h1 := fracLog2_le_of_le a b ha hb c h
  rw [ulpExpFor]
  omega

/-- Natural division is the floor of the rational quotient. -/
theorem natDiv_eq_floor (n d : ℕ) :
    ((n / d : ℕ) : ℤ) = ⌊(n : ℚ) / (d : ℚ)⌋ := by
  have h2 : (0 : ℚ) ≤ (n : ℚ) / (d : ℚ) := by positivity
  rw [← Int.natCast_floor_eq_floor h2, Nat.floor_div_nat, Nat.floor_natCast]

/-- Rounding the zero fraction gives a zero numerator. -/
theorem roundFracToDouble_fst_zero (b : ℕ) (hb : 0 < b) :
    (roundFracToDouble 0 b).1 = 0 := by
  have hB : 0 < b * 2 ^ (ulpExpFor 0 b).toNat :=
    Nat.mul_pos hb (pow_pos (by norm_num) _)
  have hm : mantissaFor 0 b = 0 := by
    show rneFrac (0 * 2 ^ (-(ulpExpFor 0 b)).toNat)
        (b * 2 ^ (ulpExpFor 0 b).toNat) = 0
    rw [Nat.zero_mul, rneFrac]
    rw [if_pos (by simpa using hB)]
    simp
  show mantissaFor 0 b * 2 ^ (ulpExpFor 0 b).toNat = 0
  rw [hm, Nat.zero_mul]

/-- Evaluate a negative power of two as a reciprocal. -/
theorem two_zpow_neg_natCast (k : ℕ) : (2 : ℚ) ^ (-(k : ℤ)) = 1 / 2 ^ k := by
  rw [zpow_neg, zpow_natCast, one_div]

/-- Full specification of `pyWinPercentage`: the float result is at most
100 and within one of the exact truncation of
`wins / (wins + losses) * 100`. -/
theorem pyWinPercentage_spec (w l : ℕ) (hpos : 0 < w + l) :
    pyWinPercentage w l ≤ 100 ∧
    ⌊((w : ℚ) / ((w : ℚ) + (l : ℚ))) * 100⌋ - 1 ≤ (pyWinPercentage w l : ℤ) ∧
    (pyWinPercentage w l : ℤ) ≤
      ⌊((w : ℚ) / ((w : ℚ) + (l : ℚ))) * 100⌋ + 1 := by
  have htq : (w : ℚ) + (l : ℚ) = ((w + l : ℕ) : ℚ) := by push_cast; ring
  rw [htq]
  have htpos : (0 : ℚ) < ((w + l : ℕ) : ℚ) := by exact_mod_cast hpos
  have hb2 : 0 < (roundFracToDouble w (w + l)).2 := by
    show 0 < 2 ^ (-(ulpExpFor w (w + l))).toNat
    exact pow_pos (by norm_num) _
  have hpy : pyWinPercentage w l =
      (roundFracToDouble ((roundFracToDouble w (w + l)).1 * 100)
        (roundFracToDouble w (w + l)).2).1 /
      (roundFracToDouble ((roundFracToDouble w (w + l)).1 * 100)
        (roundFracToDouble w (w + l)).2).2 := rfl
  rcases Nat.eq_zero_or_pos w with hw0 | hw
  · subst hw0
    have hq1 : (roundFracToDouble 0 (0 + l)).1 = 0 :=
      roundFracToDouble_fst_zero (0 + l) hpos
    have hp0 : pyWinPercentage 0 l = 0 := by
      rw [hpy, hq1, Nat.zero_mul, roundFracToDouble_fst_zero _ hb2,
          Nat.zero_div]
    rw [hp0]
    norm_num
  · have hwle : (w : ℚ) / ((w + l : ℕ) : ℚ) ≤ 1 := by
      rw [div_le_one htpos]
      exact_mod_cast Nat.le_add_right w l
    have hE1 : ulpExpFor w (w + l) ≤ -52 := by
      have h := ulpExpFor_le w (w + l) hw hpos 0 (by rw [zpow_zero]; exact hwle)
      omega
    have herr1 : |doubleVal w (w + l) - (w : ℚ) / ((w + l : ℕ) : ℚ)| ≤
        2 ^ (-52 : ℤ) / 2 := by
      have h := doubleVal_err w (w + l) hpos
      have hmono : (2 : ℚ) ^ ulpExpFor w (w + l) ≤ 2 ^ (-52 : ℤ) :=
        zpow_le_zpow_right₀ (by norm_num) hE1
      have hmono2 : (2 : ℚ) ^ ulpExpFor w (w + l) / 2 ≤ 2 ^ (-52 : ℤ) / 2 :=
        (div_le_div_iff_of_pos_right (by norm_num)).mpr hmono
      exact le_trans h hmono2
    have hval1_le1 : doubleVal w (w + l) ≤ 1 := by
      have hN1 : ((2 ^ (-(ulpExpFor w (w + l))).toNat : ℕ) : ℚ) *
          2 ^ ulpExpFor w (w + l) = 1 := by
        push_cast
        rw [← zpow_natCast (2 : ℚ) (-(ulpExpFor w (w + l))).toNat,
            Int.toNat_of_nonneg (by omega : (0 : ℤ) ≤ -(ulpExpFor w (w + l)))]
        exact zpow_neg_mul_zpow _
      have h := doubleVal_le w (w + l) (2 ^ (-(ulpExpFor w (w + l))).toNat)
        hpos (by rw [hN1]; exact hwle)
      rw [hN1] at h
      exact h
    have hval1_nn : 0 ≤ doubleVal w (w + l) := doubleVal_nonneg _ _
    set a2 := (roundFracToDouble w (w + l)).1 * 100 with ha2def
    set b2 := (roundFracToDouble w (w + l)).2 with hb2def
    have hfrac2 : ((a2 : ℕ) : ℚ) / ((b2 : ℕ) : ℚ) =
        doubleVal w (w + l) * 100 := by
      rw [ha2def, hb2def, doubleVal]
      push_cast
      rw [mul_div_right_comm]
    by_cases ha2 : a2 = 0
    · have hq10 : (roundFracToDouble w (w + l)).1 = 0 := by omega
      have hp0 : pyWinPercentage w l = 0 := by
        rw [hpy, ha2, roundFracToDouble_fst_zero _ hb2, Nat.zero_div]
      have hdv0 : doubleVal w (w + l) = 0 := by
        rw [doubleVal, hq10]
        simp
      have hsmall : (w : ℚ) / ((w + l : ℕ) : ℚ) ≤ 2 ^ (-52 : ℤ) / 2 := by
        rw [hdv0] at herr1
        rw [abs_le] at herr1
        linarith [herr1.1]
      have hexlt : ((w : ℚ) / ((w + l : ℕ) : ℚ)) * 100 < 1 := by
        have h2 : ((w : ℚ) / ((w + l : ℕ) : ℚ)) * 100 ≤
            ((2 : ℚ) ^ (-52 : ℤ) / 2) * 100 :=
          mul_le_mul_of_nonneg_right hsmall (by norm_num)
        have h3 : ((2 : ℚ) ^ (-52 : ℤ) / 2) * 100 < 1 := by
          rw [show (-52 : ℤ) = -((52 : ℕ) : ℤ) by norm_num,
              two_zpow_neg_natCast]
          norm_num
        linarith
      have hfl : ⌊((w : ℚ) / ((w + l : ℕ) : ℚ)) * 100⌋ = 0 := by
        rw [Int.floor_eq_zero_iff]
        exact Set.mem_Ico.mpr ⟨by positivity, hexlt⟩
      rw [hp0, hfl]
      norm_num
    · have ha2pos : 0 < a2 := Nat.pos_of_ne_zero ha2
      have h100 : ((a2 : ℕ) : ℚ) / ((b2 : ℕ) : ℚ) ≤ 100 := by
        rw [hfrac2]
        nlinarith [hval1_le1, hval1_nn]
      set E2 := ulpExpFor a2 b2 with hE2def
      have hE2 : E2 ≤ -45 := by
        have h7 : ((a2 : ℕ) : ℚ) / ((b2 : ℕ) : ℚ) ≤ 2 ^ (7 : ℤ) := by
          rw [show ((7 : ℤ)) = ((7 : ℕ) : ℤ) by norm_num, zpow_natCast]
          norm_num
          linarith
        have h := ulpExpFor_le a2 b2 ha2pos hb2 7 h7
        omega
      have herr2 : |doubleVal a2 b2 - doubleVal w (w + l) * 100| ≤
          2 ^ (-45 : ℤ) / 2 := by
        have h := doubleVal_err a2 b2 hb2
        rw [hfrac2] at h
        have hmono : (2 : ℚ) ^ E2 ≤ 2 ^ (-45 : ℤ) :=
          zpow_le_zpow_right₀ (by norm_num) hE2
        have hmono2 : (2 : ℚ) ^ E2 / 2 ≤ 2 ^ (-45 : ℤ) / 2 :=
          (div_le_div_iff_of_pos_right (by norm_num)).mpr hmono
        rw [← hE2def] at h
        exact le_trans h hmono2
      have hval2_le : doubleVal a2 b2 ≤ 100 := by
        have hN2 : ((100 * 2 ^ (-E2).toNat : ℕ) : ℚ) * 2 ^ E2 = 100 := by
          push_cast
          rw [← zpow_natCast (2 : ℚ) (-E2).toNat,
              Int.toNat_of_nonneg (by omega : (0 : ℤ) ≤ -E2),
              mul_assoc, zpow_neg_mul_zpow, mul_one]
        have h := doubleVal_le a2 b2 (100 * 2 ^ (-E2).toNat) hb2
          (by rw [← hE2def, hN2]; exact h100)
        rw [← hE2def, hN2] at h
        exact h
      have hres : (pyWinPercentage w l : ℤ) = ⌊doubleVal a2 b2⌋ := by
        rw [hpy, natDiv_eq_floor, doubleVal]
      have h100Z : (pyWinPercentage w l : ℤ) ≤ 100 := by
        rw [hres]
        calc ⌊doubleVal a2 b2⌋ ≤ ⌊(100 : ℚ)⌋ := Int.floor_le_floor hval2_le
          _ = 100 := by
              rw [show ((100 : ℚ)) = ((100 : ℤ) : ℚ) by norm_num,
                  Int.floor_intCast]
      have h100N : pyWinPercentage w l ≤ 100 := by exact_mod_cast h100Z
      have h2nd : |doubleVal w (w + l) * 100 -
          ((w : ℚ) / ((w + l : ℕ) : ℚ)) * 100| =
          |doubleVal w (w + l) - (w : ℚ) / ((w + l : ℕ) : ℚ)| * 100 := by
        have hre : doubleVal w (w + l) * 100 -
            ((w : ℚ) / ((w + l : ℕ) : ℚ)) * 100 =
            (doubleVal w (w + l) - (w : ℚ) / ((w + l : ℕ) : ℚ)) * 100 := by
          ring
        rw [hre, abs_mul, abs_of_nonneg (by norm_num : (0 : ℚ) ≤ 100)]
      have htot : |doubleVal a2 b2 - ((w : ℚ) / ((w + l : ℕ) : ℚ)) * 100| ≤
          2 ^ (-45 : ℤ) / 2 + 100 * (2 ^ (-52 : ℤ) / 2) := by
        have tri := abs_sub_le (doubleVal a2 b2) (doubleVal w (w + l) * 100)
          (((w : ℚ) / ((w + l : ℕ) : ℚ)) * 100)
        have hmul := mul_le_mul_of_nonneg_right herr1
          (by norm_num : (0 : ℚ) ≤ 100)
        rw [h2nd] at tri
        linarith [tri, herr2, hmul]
      have hdelta : (2 : ℚ) ^ (-45 : ℤ) / 2 + 100 * (2 ^ (-52 : ℤ) / 2) < 1 := by
        rw [show (-45 : ℤ) = -((45 : ℕ) : ℤ) by norm_num, two_zpow_neg_natCast,
            show (-52 : ℤ) = -((52 : ℕ) : ℤ) by norm_num, two_zpow_neg_natCast]
        norm_num
      rw [abs_le] at htot
      have hup : (pyWinPercentage w l : ℤ) ≤
          ⌊((w : ℚ) / ((w + l : ℕ) : ℚ)) * 100⌋ + 1 := by
        rw [hres]
        have h1 : doubleVal a2 b2 ≤
            ((w : ℚ) / ((w + l : ℕ) : ℚ)) * 100 + 1 := by
          linarith [htot.2, hdelta]
        calc ⌊doubleVal a2 b2⌋
            ≤ ⌊((w : ℚ) / ((w + l : ℕ) : ℚ)) * 100 + 1⌋ :=
              Int.floor_le_floor h1
          _ = ⌊((w : ℚ) / ((w + l : ℕ) : ℚ)) * 100⌋ + 1 := Int.floor_add_one _
      have hlo : ⌊((w : ℚ) / ((w + l : ℕ) : ℚ)) * 100⌋ - 1 ≤
          (pyWinPercentage w l : ℤ) := by
        rw [hres]
        have h1 : ((w : ℚ) / ((w + l : ℕ) : ℚ)) * 100 - 1 ≤
            doubleVal a2 b2 := by
          linarith [htot.1, hdelta]
        calc ⌊((w : ℚ) / ((w + l : ℕ) : ℚ)) * 100⌋ - 1
            = ⌊((w : ℚ) / ((w + l : ℕ) : ℚ)) * 100 - 1⌋ :=
              (Int.floor_sub_one _).symm
          _ ≤ ⌊doubleVal a2 b2⌋ := Int.floor_le_floor h1
      exact ⟨h100N, hlo, hup⟩

/-- Fetched state with 29 win-marked and 21 loss-marked records, for the
C3 counterexample. -/
def floatState : BggPlays :=
  { data := some (List.replicate 29
      { date := "2018-06-22", game_id := 1, game_name := "Azul",
        comment := some (some "Won"), length := 30 } ++
      List.replicate 21
      { date := "2018-06-21", game_id := 2, game_name := "Catan",
        comment := some (some "Lost"), length := 10 }),
    username := "alice" }

/-- C3 counterexample: at 29 wins and 21 losses the program returns
`win_percentage = 57` — `(29 / 50) * 100` evaluates below 58 in binary64
floats and `int(...)` truncates it to 57 — while the claimed exact
truncation of `wins / (wins + losses) * 100` is 58. -/
theorem coop_statistics_counterexample :
    cooperative_game_statistics floatState =
      .ok { wins := 29, losses := 21, win_percentage := 57 } ∧
    (57 : ℤ) ≠ ⌊((29 : ℚ) / ((29 : ℚ) + (21 : ℚ))) * 100⌋ := by
  constructor
  · rfl
  · have h : ((29 : ℚ) / ((29 : ℚ) + (21 : ℚ))) * 100 = ((58 : ℤ) : ℚ) := by
      norm_num
    rw [h, Int.floor_intCast]
    omega

/-- C3 (amended): for a fetched record sequence in which every present
comment value is a string (a Python `None` value would raise `TypeError`
in the tallies first) and at least one record carries a marker,
`cooperative_game_statistics` succeeds; `wins` and `losses` are the two
marker counts, and `win_percentage` — `int((wins / (wins + losses)) * 100)`
computed in binary64 floating point — lies between 0 and 100 and is
within one of the exact truncation of `wins / (wins + losses) * 100` (at
some counts one below it, as the counterexample shows). -/
theorem coop_statistics_spec (s : BggPlays) (data : List PlayRecord)
    (hd : s.data = some data)
    (hstr : ∀ p ∈ data, ∀ v, p.comment = some v → ∃ c, v = some c)
    (hpos : 0 < (data.filter hasWonComment).length +
      (data.filter hasLostComment).length) :
    ∃ st, cooperative_game_statistics s = .ok st ∧
      st.wins = (data.filter hasWonComment).length ∧
      st.losses = (data.filter hasLostComment).length ∧
      st.win_percentage ≤ 100 ∧
      ⌊((st.wins : ℚ) / ((st.wins : ℚ) + (st.losses : ℚ))) * 100⌋ - 1 ≤
        (st.win_percentage : ℤ) ∧
      (st.win_percentage : ℤ) ≤
        ⌊((st.wins : ℚ) / ((st.wins : ℚ) + (st.losses : ℚ))) * 100⌋ + 1 := by
  have hne : (data.filter hasWonComment).length +
      (data.filter hasLostComment).length ≠ 0 := Nat.pos_iff_ne_zero.mp hpos
  have hcw := countMatches_eq_filter WON_TEXT data hstr
  have hcl := countMatches_eq_filter LOST_TEXT data hstr
  have heq : cooperative_game_statistics s =
      .ok { wins := (data.filter hasWonComment).length,
            losses := (data.filter hasLostComment).length,
            win_percentage := pyWinPercentage
              (data.filter hasWonComment).length
              (data.filter hasLostComment).length } := by
    simp only [cooperative_game_statistics, hd, hcw, hcl]
    exact if_neg hne
  obtain ⟨hb, hlo, hup⟩ := pyWinPercentage_spec
    (data.filter hasWonComment).length (data.filter hasLostComment).length
    hpos
  exact ⟨_, heq, rfl, rfl, hb, hlo, hup⟩

/-- Fetched state with comments "Won the game", "Lost badly", "Won again",
for the C3 witness. -/
def coopState : BggPlays :=
  { data := some [{ date := "2018-06-22", game_id := 1, game_name := "Azul",
                    comment := some (some "Won the game"), length := 30 },
                  { date := "2018-06-21", game_id := 2, game_name := "Catan",
                    comment := some (some "Lost badly"), length := 10 },
                  { date := "2018-06-20", game_id := 1, game_name := "Azul",
                    comment := some (some "Won again"), length := 20 }],
    username := "alice" }

/-- Witness for C3's amended statement: at the three example comments the
counts are positive, the specification holds, and the concrete result is
`{wins := 2, losses := 1, win_percentage := 66}`. -/
theorem coop_statistics_spec_witness :
    (coopState.data = some [{ date := "2018-06-22", game_id := 1,
                              game_name := "Azul",
                              comment := some (some "Won the game"),
                              length := 30 },
                            { date := "2018-06-21", game_id := 2,
                              game_name := "Catan",
                              comment := some (some "Lost badly"),
                              length := 10 },
                            { date := "2018-06-20", game_id := 1,
                              game_name := "Azul",
                              comment := some (some "Won again"),
                              length := 20 }] ∧
     0 < ([{ date := "2018-06-22", game_id := 1, game_name := "Azul",
             comment := some (some "Won the game"), length := 30 },
           { date := "2018-06-21", game_id := 2, game_name := "Catan",
             comment := some (some "Lost badly"), length := 10 },
           { date := "2018-06-20", game_id := 1, game_name := "Azul",
             comment := some (some "Won again"), length := 20 }].filter
             hasWonComment).length +
         ([{ date := "2018-06-22", game_id := 1, game_name := "Azul",
             comment := some (some "Won the game"), length := 30 },
           { date := "2018-06-21", game_id := 2, game_name := "Catan",
             comment := some (some "Lost badly"), length := 10 },
           { date := "2018-06-20", game_id := 1, game_name := "Azul",
             comment := some (some "Won again"), length := 20 }].filter
             hasLostComment).length) ∧
    (∃ st, cooperative_game_statistics coopState = .ok st ∧
      st.wins = ([{ date := "2018-06-22", game_id := 1, game_name := "Azul",
                    comment := some (some "Won the game"), length := 30 },
                  { date := "2018-06-21", game_id := 2, game_name := "Catan",
                    comment := some (some "Lost badly"), length := 10 },
                  { date := "2018-06-20", game_id := 1, game_name := "Azul",
                    comment := some (some "Won again"), length := 20 }].filter
                    hasWonComment).length ∧
      st.losses = ([{ date := "2018-06-22", game_id := 1, game_name := "Azul",
                      comment := some (some "Won the game"), length := 30 },
                    { date := "2018-06-21", game_id := 2, game_name := "Catan",
                      comment := some (some "Lost badly"), length := 10 },
                    { date := "2018-06-20", game_id := 1, game_name := "Azul",
                      comment := some (some "Won again"), length := 20 }].filter
                      hasLostComment).length ∧
      st.win_percentage ≤ 100 ∧
      ⌊((st.wins : ℚ) / ((st.wins : ℚ) + (st.losses : ℚ))) * 100⌋ - 1 ≤
        (st.win_percentage : ℤ) ∧
      (st.win_percentage : ℤ) ≤
        ⌊((st.wins : ℚ) / ((st.wins : ℚ) + (st.losses : ℚ))) * 100⌋ + 1) ∧
    cooperative_game_statistics coopState =
      .ok { wins := 2, losses := 1, win_percentage := 66 } :=
  ⟨⟨rfl, by decide⟩,
   coop_statistics_spec coopState _ rfl (by
     intro p hp v hv
     rcases List.mem_cons.mp hp with h | h
     · subst h
       injection hv with h2
       subst h2
       exact ⟨"Won the game", rfl⟩
     · rcases List.mem_cons.mp h with h1 | h1
       · subst h1
         injection hv with h2
         subst h2
         exact ⟨"Lost badly", rfl⟩
       · rcases List.mem_cons.mp h1 with h2 | h2
         · subst h2
           injection hv with h3
           subst h3
           exact ⟨"Won again", rfl⟩
         · cases h2) (by decide),
   rfl⟩
